import Mathlib

/-!
# Verification of the AppContext domain rules engine

Shallow embedding of the in-memory store of `AppContext` (clients, products,
projects, transactions, stock movements) and of its operations, translated
from the TypeScript source.  JS numbers are modelled as `ℚ`; JS strings as
`String` (char sequences); `Partial<T>` update objects as structures of
`Option` fields; functions that the source writes as unboundedly recursive
(`checkCircularReference`, `calculateProductCost`) are embedded with an
explicit fuel parameter, `none` marking fuel exhaustion (i.e. a recursion
deeper than the given bound); `generateId()` is modelled as a deterministic
counter carried in the state (`nextId`), which captures its freshness
contract; the wall clock (`new Date()`) is modelled by the state fields
`nowIso` (ISO timestamp, used for `created_at`) and `today` (its date part
`YYYY-MM-DD`, used for `date` fields and the dashboard month).
-/

/-- `client.type` : `'pf' | 'pj'`. -/
inductive ClientType
  | pf
  | pj
deriving DecidableEq

/-- `product.type` : `'material_bruto' | 'parte_produto' | 'produto_pronto'`. -/
inductive ProductType
  | material_bruto
  | parte_produto
  | produto_pronto
deriving DecidableEq

/-- `project.status` : `'orcamento' | 'aprovado' | 'em_producao' | 'concluido' | 'entregue'`. -/
inductive ProjectStatus
  | orcamento
  | aprovado
  | em_producao
  | concluido
  | entregue
deriving DecidableEq

/-- `project.type` : `'orcamento' | 'venda'`. -/
inductive ProjectKind
  | orcamento
  | venda
deriving DecidableEq

/-- `type` of `Transaction` and `StockMovement` : `'entrada' | 'saida'`. -/
inductive FlowType
  | entrada
  | saida
deriving DecidableEq

/-- `payment_method` of `PaymentTerms`. -/
inductive PaymentMethod
  | dinheiro
  | pix
  | cartao_credito
  | cartao_debito
  | boleto
  | transferencia
deriving DecidableEq

/-- The nested `address` record of `Client`. -/
structure Address where
  country : String
  state : String
  city : String
  zipCode : String
  neighborhood : String
  streetType : String
  street : String
deriving DecidableEq

/-- The `Client` interface.  Optional (`?`) fields are `Option`s. -/
structure Client where
  id : String
  name : String
  type : ClientType
  cpf : Option String
  cnpj : Option String
  email : String
  phone : String
  mobile : String
  razao_social : Option String
  inscricao_estadual : Option String
  isento_icms : Option Bool
  numero : Option String
  complemento : Option String
  id_empresa : Option String
  fl_ativo : Bool
  address : Address
  created_at : String
  total_projects : Option ℚ
  total_value : Option ℚ
deriving DecidableEq

/-- The `ProductComponent` interface. -/
structure ProductComponent where
  product_id : String
  product_name : String
  quantity : ℚ
  unit : String
  unit_cost : ℚ
  total_cost : ℚ
deriving DecidableEq

/-- The `Product` interface. -/
structure Product where
  id : String
  name : String
  description : String
  category : String
  type : ProductType
  unit : String
  components : List ProductComponent
  cost_price : ℚ
  sale_price : Option ℚ
  current_stock : ℚ
  min_stock : ℚ
  supplier : Option String
  created_at : String
deriving DecidableEq

/-- The `ProjectProduct` interface (a project line item). -/
structure ProjectProduct where
  id : String
  product_id : String
  product_name : String
  quantity : ℚ
  unit_price : ℚ
  total_price : ℚ
deriving DecidableEq

/-- The `PaymentTerms` interface. -/
structure PaymentTerms where
  installments : ℚ
  payment_method : PaymentMethod
  discount_percentage : ℚ
  installment_value : Option ℚ
  total_with_discount : Option ℚ
deriving DecidableEq

/-- The `Project` interface. -/
structure Project where
  id : String
  number : ℚ
  client_id : String
  client_name : Option String
  title : String
  description : String
  status : ProjectStatus
  type : ProjectKind
  products : List ProjectProduct
  budget : ℚ
  start_date : String
  end_date : String
  created_at : String
  materials_cost : Option ℚ
  labor_cost : Option ℚ
  profit_margin : Option ℚ
  payment_terms : Option PaymentTerms
deriving DecidableEq

/-- The `Transaction` interface. -/
structure Transaction where
  id : String
  project_id : Option String
  project_title : Option String
  type : FlowType
  category : String
  description : String
  amount : ℚ
  date : String
  created_at : String
deriving DecidableEq

/-- The `StockMovement` interface. -/
structure StockMovement where
  id : String
  product_id : String
  product_name : String
  type : FlowType
  quantity : ℚ
  unit_price : Option ℚ
  total_value : Option ℚ
  project_id : Option String
  project_title : Option String
  date : String
  created_at : String
deriving DecidableEq

/-- The in-memory store held by the provider (the five `useState` collections),
together with the id counter modelling `generateId()` and the clock. -/
structure AppState where
  clients : List Client
  projects : List Project
  transactions : List Transaction
  products : List Product
  stockMovements : List StockMovement
  nextId : Nat
  nowIso : String
  today : String
deriving DecidableEq

/-- `generateId()`: modelled as a deterministic fresh-id source indexed by the
state counter (the source uses timestamp + random suffix; only freshness
matters to the rules). -/
def genId (n : Nat) : String := "id-" ++ toString n

/-- `Math.max(...)` over a nonempty list of JS numbers (`0` for `[]`,
which the source never queries: the call is guarded by `length > 0`). -/
def listMaxQ : List ℚ → ℚ
  | [] => 0
  | h :: t => t.foldl max h

/-- `products.find(p => p.id === pid)`. -/
def findProduct (ps : List Product) (pid : String) : Option Product :=
  ps.find? (fun p => p.id == pid)

/-- `addClient`: prepends the record with a fresh id and creation timestamp
(the input's `id`/`created_at` are overwritten, modelling the `Omit` type). -/
def addClient (s : AppState) (c : Client) : AppState :=
  { s with
    clients := { c with id := genId s.nextId, created_at := s.nowIso } :: s.clients,
    nextId := s.nextId + 1 }

/-- `addTransaction`: prepends the record with a fresh id and timestamp. -/
def addTransaction (s : AppState) (t : Transaction) : AppState :=
  { s with
    transactions := { t with id := genId s.nextId, created_at := s.nowIso } :: s.transactions,
    nextId := s.nextId + 1 }

/-- `addStockMovement`: prepends the movement and updates the referenced
product's `current_stock` by `+quantity` (entrada) or `-quantity` (saida). -/
def addStockMovement (s : AppState) (m : StockMovement) : AppState :=
  { s with
    stockMovements :=
      { m with id := genId s.nextId, created_at := s.nowIso } :: s.stockMovements,
    nextId := s.nextId + 1,
    products := s.products.map (fun p =>
      if p.id == m.product_id then
        { p with current_stock :=
            if m.type = FlowType.entrada then p.current_stock + m.quantity
            else p.current_stock - m.quantity }
      else p) }

/-- The component inner loop of `processProjectStockMovement`: one `saida`
movement per component of the sold product, scaled by the line quantity. -/
def compLoop (projectId : String) (item : ProjectProduct) :
    AppState → List ProductComponent → AppState
  | st, [] => st
  | st, c :: rest =>
      compLoop projectId item
        (addStockMovement st
          { id := "", product_id := c.product_id, product_name := c.product_name,
            type := FlowType.saida, quantity := c.quantity * item.quantity,
            unit_price := some c.unit_cost,
            total_value := some (c.total_cost * item.quantity),
            project_id := some projectId, project_title := none,
            date := st.today, created_at := "" }) rest

/-- The line-item loop of `processProjectStockMovement`.  `snapshot` is the
`products` closure variable captured at call time (functional `setProducts`
updates do not refresh it during the loop). -/
def processLoop (snapshot : List Product) (projectId : String) :
    AppState → List ProjectProduct → AppState
  | st, [] => st
  | st, item :: rest =>
      match findProduct snapshot item.product_id with
      | none => processLoop snapshot projectId st rest
      | some product =>
          let st1 := addStockMovement st
            { id := "", product_id := product.id, product_name := product.name,
              type := FlowType.saida, quantity := item.quantity,
              unit_price := some item.unit_price,
              total_value := some item.total_price,
              project_id := some projectId, project_title := none,
              date := st.today, created_at := "" }
          let st2 :=
            if product.type ≠ ProductType.material_bruto then
              compLoop projectId item st1 product.components
            else st1
          processLoop snapshot projectId st2 rest

/-- `processProjectStockMovement(projectId, products)`. -/
def processProjectStockMovement (s : AppState) (projectId : String)
    (items : List ProjectProduct) : AppState :=
  processLoop s.products projectId s items

/-- Core of `addProject`, with the `projects`/`products` closure variables as
explicit snapshots (a CSV import loop calls it repeatedly against the same
stale snapshots, while a direct call passes the current state's own lists). -/
def addProjectWith (projSnap : List Project) (prodSnap : List Product)
    (s : AppState) (pd : Project) : AppState :=
  let projectNumber : ℚ :=
    if projSnap.length > 0 then listMaxQ (projSnap.map (fun p => p.number)) + 1 else 1
  let pid := genId s.nextId
  let newProject : Project :=
    { pd with id := pid, number := projectNumber, created_at := s.nowIso }
  let s1 : AppState :=
    { s with projects := newProject :: s.projects, nextId := s.nextId + 1 }
  if pd.type = ProjectKind.venda ∧ pd.status ≠ ProjectStatus.orcamento then
    let s2 := addTransaction s1
      { id := "", project_id := some pid, project_title := some pd.title,
        type := FlowType.entrada, category := "Sinal",
        description := "Sinal do projeto #" ++ toString projectNumber ++ " - " ++ pd.title,
        amount := pd.budget * (1/2), date := s1.today, created_at := "" }
    if pd.products.length > 0 then
      processLoop prodSnap pid s2 pd.products
    else s2
  else s1

/-- `addProject`: assigns `number` (max over current projects + 1, or 1),
prepends, and for a `venda` project not in `orcamento` emits the 50% deposit
transaction and the stock cascade. -/
def addProject (s : AppState) (pd : Project) : AppState :=
  addProjectWith s.projects s.products s pd

/-- `Partial<Project>` (every field optional; fields that are already
optional on `Project` can be explicitly set, including to `undefined`). -/
structure ProjectPatch where
  id : Option String := none
  number : Option ℚ := none
  client_id : Option String := none
  client_name : Option (Option String) := none
  title : Option String := none
  description : Option String := none
  status : Option ProjectStatus := none
  type : Option ProjectKind := none
  products : Option (List ProjectProduct) := none
  budget : Option ℚ := none
  start_date : Option String := none
  end_date : Option String := none
  created_at : Option String := none
  materials_cost : Option (Option ℚ) := none
  labor_cost : Option (Option ℚ) := none
  profit_margin : Option (Option ℚ) := none
  payment_terms : Option (Option PaymentTerms) := none
deriving DecidableEq

/-- The spread merge `{ ...p, ...updates }`. -/
def applyPatch (p : Project) (u : ProjectPatch) : Project :=
  { id := u.id.getD p.id
    number := u.number.getD p.number
    client_id := u.client_id.getD p.client_id
    client_name := u.client_name.getD p.client_name
    title := u.title.getD p.title
    description := u.description.getD p.description
    status := u.status.getD p.status
    type := u.type.getD p.type
    products := u.products.getD p.products
    budget := u.budget.getD p.budget
    start_date := u.start_date.getD p.start_date
    end_date := u.end_date.getD p.end_date
    created_at := u.created_at.getD p.created_at
    materials_cost := u.materials_cost.getD p.materials_cost
    labor_cost := u.labor_cost.getD p.labor_cost
    profit_margin := u.profit_margin.getD p.profit_margin
    payment_terms := u.payment_terms.getD p.payment_terms }

/-- `updateProject(id, updates)`: merges the patch into every project with the
given id, then, if the patch sets status `concluido` and the pre-update record
was found with a different status, emits the `Pagamento Final` inflow of 50%
of the pre-update `budget`. -/
def updateProject (s : AppState) (id : String) (u : ProjectPatch) : AppState :=
  let project? := s.projects.find? (fun p => p.id == id)
  let s1 : AppState :=
    { s with projects := s.projects.map (fun p => if p.id == id then applyPatch p u else p) }
  match project? with
  | some project =>
      if u.status = some ProjectStatus.concluido ∧ project.status ≠ ProjectStatus.concluido then
        addTransaction s1
          { id := "", project_id := some id, project_title := some project.title,
            type := FlowType.entrada, category := "Pagamento Final",
            description := "Pagamento final - Projeto #" ++ toString project.number,
            amount := project.budget * (1/2), date := s1.today, created_at := "" }
      else s1
  | none => s1

/-- `deleteProject(id)`: removes the project and every transaction and stock
movement tagged with its id (the product stock counters are not touched). -/
def deleteProject (s : AppState) (id : String) : AppState :=
  { s with
    projects := s.projects.filter (fun p => ¬ (p.id == id)),
    transactions := s.transactions.filter (fun t => ¬ (t.project_id == some id)),
    stockMovements := s.stockMovements.filter (fun sm => ¬ (sm.project_id == some id)) }

mutual

/-- `checkCircularReference(productId, componentId)` with explicit fuel:
`none` models a recursion deeper than the fuel (the source recursion is
unbounded and diverges on a reachable cycle). -/
def ckFuel (ps : List Product) : Nat → String → String → Option Bool
  | 0, _, _ => none
  | fuel + 1, productId, componentId =>
      if productId = componentId then some true
      else
        match findProduct ps componentId with
        | none => some false
        | some product => ckList ps fuel productId product.components

/-- The `for (const comp of product.components)` loop of
`checkCircularReference`: first recursive `true` wins, divergence (`none`)
of an earlier component pre-empts later ones. -/
def ckList (ps : List Product) : Nat → String → List ProductComponent → Option Bool
  | _, _, [] => some false
  | fuel, productId, c :: rest =>
      match ckFuel ps fuel productId c.product_id with
      | none => none
      | some true => some true
      | some false => ckList ps fuel productId rest

end

/-- `checkCircularReference` at the canonical fuel `|products| + 1`, which is
enough for every acyclic catalog (the recursion depth is bounded by the rank
of the start node). -/
def checkCircularReference (ps : List Product) (productId componentId : String) : Option Bool :=
  ckFuel ps (ps.length + 1) productId componentId

/-- The component-validation loop of `addProduct`/`updateProduct`: throws
(`some true`) on the first component whose check returns true, diverges
(`none`) if a check diverges. -/
def circAny (ps : List Product) (productId : String) : List ProductComponent → Option Bool
  | [] => some false
  | c :: rest =>
      match checkCircularReference ps productId c.product_id with
      | none => none
      | some true => some true
      | some false => circAny ps productId rest

/-- Core of `addProduct` with the `products` closure variable as an explicit
snapshot.  Result: `none` = the cycle check diverges; `some (.error e)` = the
circular-reference error is thrown; `some (.ok s')` = the product is inserted.
When components are present the source consumes one generated id for `tempId`
and a second for the new product's id. -/
def addProductWith (prodSnap : List Product) (s : AppState) (pd : Product) :
    Option (Except String AppState) :=
  if pd.components.length > 0 then
    let tempId := genId s.nextId
    match circAny prodSnap tempId pd.components with
    | none => none
    | some true =>
        some (Except.error
          "Referência circular detectada: um produto não pode usar a si mesmo como componente.")
    | some false =>
        some (Except.ok
          { s with
            products :=
              { pd with id := genId (s.nextId + 1), created_at := s.nowIso } :: s.products,
            nextId := s.nextId + 2 })
  else
    some (Except.ok
      { s with
        products := { pd with id := genId s.nextId, created_at := s.nowIso } :: s.products,
        nextId := s.nextId + 1 })

/-- `addProduct`. -/
def addProduct (s : AppState) (pd : Product) : Option (Except String AppState) :=
  addProductWith s.products s pd

/-- `updateProduct(product)`: re-runs the cycle check against the product's
own id, then replaces every stored product with that id. -/
def updateProduct (s : AppState) (product : Product) : Option (Except String AppState) :=
  if product.components.length > 0 then
    match circAny s.products product.id product.components with
    | none => none
    | some true =>
        some (Except.error
          "Referência circular detectada: um produto não pode usar a si mesmo como componente.")
    | some false =>
        some (Except.ok
          { s with products := s.products.map (fun p => if p.id == product.id then product else p) })
  else
    some (Except.ok
      { s with products := s.products.map (fun p => if p.id == product.id then product else p) })

mutual

/-- `calculateProductCost(productId)` with explicit fuel (`none` = recursion
deeper than the fuel): `0` for an unknown id, the stored `cost_price` for a
`material_bruto`, otherwise the sum of component costs times quantities. -/
def ccFuel (ps : List Product) : Nat → String → Option ℚ
  | 0, _ => none
  | fuel + 1, pid =>
      match findProduct ps pid with
      | none => some 0
      | some p =>
          if p.type = ProductType.material_bruto then some p.cost_price
          else ccList ps fuel p.components

/-- The accumulation loop of `calculateProductCost` over the components. -/
def ccList (ps : List Product) : Nat → List ProductComponent → Option ℚ
  | _, [] => some 0
  | fuel, c :: rest =>
      match ccFuel ps fuel c.product_id with
      | none => none
      | some v =>
          match ccList ps fuel rest with
          | none => none
          | some acc => some (v * c.quantity + acc)

end

/-- `calculateProductCost` at the canonical fuel `|products| + 1`. -/
def calculateProductCost (ps : List Product) (pid : String) : Option ℚ :=
  ccFuel ps (ps.length + 1) pid

/-- The value of `calculateProductCost` where it terminates. -/
def costValue (ps : List Product) (pid : String) : ℚ :=
  (calculateProductCost ps pid).getD 0

/-- Value of a digit string read left to right (a char sequence treated as
base-10 digits). -/
def digitsValAux (acc : Nat) : List Char → Nat
  | [] => acc
  | c :: rest => digitsValAux (acc * 10 + (c.toNat - 48)) rest

/-- Numeric value of an all-digit char sequence. -/
def digitsVal (l : List Char) : Nat := digitsValAux 0 l

/-- `new Date(str).getMonth()` for an ISO `YYYY-MM-DD` string, up to the
constant 0-based shift (which cancels in every comparison the source makes):
the month number encoded at positions 5-6. -/
def jsMonth (str : String) : Nat :=
  digitsVal ((str.data.drop 5).take 2)

/-- `new Date(str).getFullYear()` for an ISO `YYYY-MM-DD` string. -/
def jsYear (str : String) : Nat :=
  digitsVal (str.data.take 4)

/-- The numeric fields of `getDashboardStats()` (the `recentActivity` feed,
a presentation-only list sorted by opaque timestamps, is not modelled). -/
structure DashboardStats where
  totalClients : Nat
  activeProjects : Nat
  monthlyRevenue : ℚ
  pendingPayments : ℚ
  lowStockItems : Nat
deriving DecidableEq

/-- `getDashboardStats()`: note that `monthlyRevenue` filters on
`new Date(t.date).getMonth() === currentMonth` only — the month number,
not the year. -/
def getDashboardStats (s : AppState) : DashboardStats :=
  { totalClients := s.clients.length
    activeProjects :=
      (s.projects.filter (fun p =>
        p.status == ProjectStatus.em_producao || p.status == ProjectStatus.aprovado)).length
    monthlyRevenue :=
      ((s.transactions.filter (fun t =>
          t.type == FlowType.entrada && jsMonth t.date == jsMonth s.today)).foldl
        (fun sum t => sum + t.amount) 0)
    pendingPayments :=
      ((s.projects.filter (fun p =>
          p.status == ProjectStatus.concluido || p.status == ProjectStatus.entregue)).foldl
        (fun sum p => sum + p.budget * (1/2)) 0)
    lowStockItems := (s.products.filter (fun p => decide (p.current_stock ≤ p.min_stock))).length }

/-! ## Basic preservation facts about the operations -/

theorem addStockMovement_projects (s : AppState) (m : StockMovement) :
    (addStockMovement s m).projects = s.projects := rfl

theorem addStockMovement_transactions (s : AppState) (m : StockMovement) :
    (addStockMovement s m).transactions = s.transactions := rfl

theorem addStockMovement_today (s : AppState) (m : StockMovement) :
    (addStockMovement s m).today = s.today := rfl

theorem compLoop_projects (pid : String) (item : ProjectProduct) :
    ∀ (cs : List ProductComponent) (st : AppState),
      (compLoop pid item st cs).projects = st.projects := by
  intro cs
  induction cs with
  | nil => intro st; rfl
  | cons c rest ih => intro st; simpa [compLoop] using ih _

theorem compLoop_today (pid : String) (item : ProjectProduct) :
    ∀ (cs : List ProductComponent) (st : AppState),
      (compLoop pid item st cs).today = st.today := by
  intro cs
  induction cs with
  | nil => intro st; rfl
  | cons c rest ih => intro st; simpa [compLoop] using ih _

theorem processLoop_projects (snap : List Product) (pid : String) :
    ∀ (items : List ProjectProduct) (st : AppState),
      (processLoop snap pid st items).projects = st.projects := by
  intro items
  induction items with
  | nil => intro st; rfl
  | cons item rest ih =>
      intro st
      simp only [processLoop]
      cases findProduct snap item.product_id with
      | none => exact ih st
      | some product =>
          rw [ih]
          by_cases h : product.type ≠ ProductType.material_bruto <;>
            simp [h, compLoop_projects, addStockMovement_projects]

/-! ## Helper facts about `listMaxQ` -/

theorem foldl_max_le_init (t : List ℚ) : ∀ a : ℚ, a ≤ t.foldl max a := by
  induction t with
  | nil => intro a; exact le_refl a
  | cons h t ih => intro a; exact le_trans (le_max_left a h) (ih (max a h))

theorem foldl_max_mem (t : List ℚ) : ∀ (a x : ℚ), x ∈ t → x ≤ t.foldl max a := by
  induction t with
  | nil => intro a x hx; cases hx
  | cons h t ih =>
      intro a x hx
      rcases List.mem_cons.mp hx with rfl | hx
      · exact le_trans (le_max_right a x) (foldl_max_le_init t (max a x))
      · exact ih (max a h) x hx

theorem le_listMaxQ (l : List ℚ) (x : ℚ) (hx : x ∈ l) : x ≤ listMaxQ l := by
  cases l with
  | nil => cases hx
  | cons h t =>
      rcases List.mem_cons.mp hx with rfl | hx
      · exact foldl_max_le_init t x
      · exact foldl_max_mem t h x hx

/-! ## C3: project number assignment -/

/-- An empty starting state. -/
def emptyState : AppState :=
  { clients := [], projects := [], transactions := [], products := [],
    stockMovements := [], nextId := 0,
    nowIso := "2026-01-01T00:00:00.000Z", today := "2026-01-01" }

/-- Input for a plain quote project (no financial side effects fire). -/
def quoteProject (t : String) : Project :=
  { id := "", number := 0, client_id := "c1", client_name := none, title := t,
    description := "", status := ProjectStatus.orcamento, type := ProjectKind.orcamento,
    products := [], budget := 0, start_date := "2026-01-01", end_date := "2026-02-01",
    created_at := "", materials_cost := none, labor_cost := none, profit_margin := none,
    payment_terms := none }

theorem genId_zero : genId 0 = "id-0" := rfl

theorem genId_one : genId 1 = "id-1" := rfl

theorem genId_two : genId 2 = "id-2" := rfl

/-- State after creating two projects (numbers 1 and 2). -/
def numState2 : AppState := addProject (addProject emptyState (quoteProject "a")) (quoteProject "b")

/-- State after deleting the project that holds number 2 (its id is `id-1`). -/
def numState3 : AppState := deleteProject numState2 "id-1"

theorem addTransaction_projects (s : AppState) (t : Transaction) :
    (addTransaction s t).projects = s.projects := rfl

/-- The project list after `addProject` is always the new record (fresh id,
assigned number, creation timestamp) prepended to the old list, whatever
financial and stock side effects fire. -/
theorem addProjectWith_projects (projSnap : List Project) (prodSnap : List Product)
    (s : AppState) (pd : Project) :
    (addProjectWith projSnap prodSnap s pd).projects =
      { pd with
        id := genId s.nextId
        number := (if projSnap.length > 0 then
            listMaxQ (projSnap.map (fun p => p.number)) + 1 else 1)
        created_at := s.nowIso } :: s.projects := by
  show (addProjectWith projSnap prodSnap s pd).projects = _
  unfold addProjectWith
  by_cases h : pd.type = ProjectKind.venda ∧ pd.status ≠ ProjectStatus.orcamento
  · rw [if_pos h]
    by_cases h2 : pd.products.length > 0
    · rw [if_pos h2, processLoop_projects, addTransaction_projects]
    · rw [if_neg h2, addTransaction_projects]
  · rw [if_neg h]

/-- C3 (amended): the number assigned by `addProject` is `1 + max` of the
numbers of the projects *currently* in the store (1 if the store is empty),
hence strictly larger than every number currently in use — but, as the
counterexample shows, it can repeat a number whose holder was deleted. -/
theorem addProject_number_assignment (s : AppState) (pd : Project) :
    ∃ newP : Project,
      (addProject s pd).projects = newP :: s.projects ∧
      (s.projects = [] → newP.number = 1) ∧
      (s.projects ≠ [] →
        newP.number = listMaxQ (s.projects.map (fun p => p.number)) + 1) ∧
      (∀ p ∈ s.projects, p.number < newP.number) := by
  refine ⟨_, addProjectWith_projects s.projects s.products s pd, ?_, ?_, ?_⟩
  · intro h
    simp [h]
  · intro h
    have hl : s.projects.length > 0 := List.length_pos.mpr h
    simp [hl]
  · intro p hp
    have hl : s.projects.length > 0 := List.length_pos.mpr (List.ne_nil_of_mem hp)
    have hle : p.number ≤ listMaxQ (s.projects.map (fun q => q.number)) :=
      le_listMaxQ _ _ (List.mem_map_of_mem _ hp)
    simp [hl]
    linarith

/-- C3 witness: the amended statement instantiated at a concrete store
holding one project numbered 1. -/
theorem addProject_number_assignment_witness :
    ∃ newP : Project,
      (addProject numState3 (quoteProject "c")).projects = newP :: numState3.projects ∧
      (numState3.projects = [] → newP.number = 1) ∧
      (numState3.projects ≠ [] →
        newP.number = listMaxQ (numState3.projects.map (fun p => p.number)) + 1) ∧
      (∀ p ∈ numState3.projects, p.number < newP.number) :=
  addProject_number_assignment numState3 (quoteProject "c")

/-- C3 counterexample: numbers 1 and 2 are assigned; the project holding
number 2 is deleted; the next `addProject` hands out number 2 again (the
claim demands 3, since 2 was already used), so a number IS reused after
deletion. -/
theorem addProject_number_reuse_counterexample :
    numState2.projects.map (fun p => p.number) = [2, 1] ∧
    numState3.projects.map (fun p => p.number) = [1] ∧
    (addProject numState3 (quoteProject "c")).projects.map (fun p => p.number) = [2, 1] := by
  refine ⟨?_, ?_, ?_⟩
  · norm_num [numState2, addProject, addProjectWith, emptyState, quoteProject, listMaxQ]
  · simp [numState3, numState2, addProject, addProjectWith, emptyState, quoteProject, listMaxQ,
      deleteProject, genId_zero, genId_one, genId_two, List.filter_cons, List.filter_nil]
    try norm_num
  · simp [numState3, numState2, addProject, addProjectWith, emptyState, quoteProject, listMaxQ,
      deleteProject, genId_zero, genId_one, genId_two, List.filter_cons, List.filter_nil]
    try norm_num

/-! ## C5 / C9: the final-payment rule of `updateProject` -/

/-- When the patch sets status `concluido` and the pre-update record is found
with a different status, `updateProject` prepends exactly one `Pagamento
Final` inflow of half the PRE-update budget. -/
theorem updateProject_trigger_transactions (s : AppState) (id : String) (u : ProjectPatch)
    (p : Project) (hfind : s.projects.find? (fun q => q.id == id) = some p)
    (hst : u.status = some ProjectStatus.concluido)
    (hprev : p.status ≠ ProjectStatus.concluido) :
    (updateProject s id u).transactions =
      { id := genId s.nextId
        project_id := some id
        project_title := some p.title
        type := FlowType.entrada
        category := "Pagamento Final"
        description := "Pagamento final - Projeto #" ++ toString p.number
        amount := p.budget * (1/2)
        date := s.today
        created_at := s.nowIso } :: s.transactions := by
  simp only [updateProject, hfind]
  rw [if_pos ⟨hst, hprev⟩]
  rfl

/-- When the pre-update record is already `concluido`, no transaction is
emitted. -/
theorem updateProject_already_done_transactions (s : AppState) (id : String)
    (u : ProjectPatch) (p : Project)
    (hfind : s.projects.find? (fun q => q.id == id) = some p)
    (hprev : p.status = ProjectStatus.concluido) :
    (updateProject s id u).transactions = s.transactions := by
  simp only [updateProject, hfind]
  rw [if_neg (by simp [hprev])]

/-- The project list after `updateProject` is the patch merged into every
record with the given id. -/
theorem updateProject_projects (s : AppState) (id : String) (u : ProjectPatch) :
    (updateProject s id u).projects =
      s.projects.map (fun p => if p.id == id then applyPatch p u else p) := by
  unfold updateProject
  cases hf : s.projects.find? (fun q => q.id == id) with
  | none => rfl
  | some p =>
      simp only [hf]
      by_cases h : u.status = some ProjectStatus.concluido ∧ p.status ≠ ProjectStatus.concluido
      · rw [if_pos h]; rfl
      · rw [if_neg h]

/-- A store holding one `aprovado` project `pr-1` with budget 100. -/
def updState : AppState :=
  { emptyState with
    projects := [{ quoteProject "w" with
      id := "pr-1"
      number := 1
      status := ProjectStatus.aprovado
      type := ProjectKind.venda
      budget := 100 }] }

/-- A patch that only sets status `concluido`. -/
def patchDone : ProjectPatch := { status := some ProjectStatus.concluido }

/-- A patch that only sets status `aprovado`. -/
def patchRevert : ProjectPatch := { status := some ProjectStatus.aprovado }

/-- A patch that sets status `concluido` and a new budget of 500. -/
def patchDoneBudget : ProjectPatch :=
  { status := some ProjectStatus.concluido, budget := some 500 }

/-- C5 (amended): an update that moves a found project into `concluido` from a
different status prepends exactly one `Pagamento Final` inflow of half its
budget, and an update of a project already in `concluido` emits nothing — but
(see the counterexample) over a sequence of updates that leaves `concluido`
and re-enters it the transaction is emitted once per entering transition,
not at most once per project. -/
theorem updateProject_final_payment (s : AppState) (id : String) (u : ProjectPatch)
    (p : Project) (hfind : s.projects.find? (fun q => q.id == id) = some p) :
    (u.status = some ProjectStatus.concluido → p.status ≠ ProjectStatus.concluido →
      ∃ t : Transaction,
        (updateProject s id u).transactions = t :: s.transactions ∧
        t.type = FlowType.entrada ∧ t.category = "Pagamento Final" ∧
        t.amount = p.budget * (1/2) ∧ t.project_id = some id) ∧
    (p.status = ProjectStatus.concluido →
      (updateProject s id u).transactions = s.transactions) := by
  constructor
  · intro hst hprev
    exact ⟨_, updateProject_trigger_transactions s id u p hfind hst hprev,
      rfl, rfl, rfl, rfl⟩
  · intro hprev
    exact updateProject_already_done_transactions s id u p hfind hprev

/-- C5 witness: completing the concrete `aprovado` project `pr-1` emits the
half-budget final payment; the already-`concluido` branch is exercised on the
post-update state. -/
theorem updateProject_final_payment_witness :
    (∃ t : Transaction,
      (updateProject updState "pr-1" patchDone).transactions = t :: updState.transactions ∧
      t.type = FlowType.entrada ∧ t.category = "Pagamento Final" ∧
      t.amount = 100 * (1/2) ∧ t.project_id = some "pr-1") ∧
    (updateProject (updateProject updState "pr-1" patchDone) "pr-1" patchDone).transactions =
      (updateProject updState "pr-1" patchDone).transactions := by
  constructor
  · exact (updateProject_final_payment updState "pr-1" patchDone _ rfl).1 rfl (by decide)
  · exact (updateProject_final_payment (updateProject updState "pr-1" patchDone) "pr-1"
      patchDone _ rfl).2 rfl

/-- C5 counterexample: complete `pr-1`, move it back to `aprovado`, and
complete it again — the `Pagamento Final` transaction for this one project is
emitted twice, refuting "at most once per project over any sequence of
updates". -/
theorem updateProject_final_payment_twice_counterexample :
    ((updateProject (updateProject (updateProject updState "pr-1" patchDone)
          "pr-1" patchRevert) "pr-1" patchDone).transactions.filter
        (fun t => t.category == "Pagamento Final" && t.project_id == some "pr-1")).length
      = 2 := by
  simp [updState, emptyState, quoteProject, patchDone, patchRevert, updateProject, applyPatch,
    addTransaction, List.filter_cons, List.filter_nil]

/-- C9: when one `updateProject` call both sets status `concluido` and
supplies a new budget, the emitted final payment is half the PRE-update
budget, while the stored project ends up with the new budget. -/
theorem updateProject_final_payment_old_budget (s : AppState) (id : String)
    (u : ProjectPatch) (p : Project) (B : ℚ)
    (hfind : s.projects.find? (fun q => q.id == id) = some p)
    (hst : u.status = some ProjectStatus.concluido)
    (hprev : p.status ≠ ProjectStatus.concluido)
    (hbud : u.budget = some B) :
    ∃ t : Transaction,
      (updateProject s id u).transactions = t :: s.transactions ∧
      t.amount = p.budget * (1/2) ∧
      ∀ q ∈ (updateProject s id u).projects, q.id = id → q.budget = B := by
  refine ⟨_, updateProject_trigger_transactions s id u p hfind hst hprev, rfl, ?_⟩
  intro q hq hqid
  rw [updateProject_projects] at hq
  rcases List.mem_map.mp hq with ⟨q0, hq0, hq0eq⟩
  by_cases h : q0.id == id
  · rw [if_pos h] at hq0eq
    subst hq0eq
    show u.budget.getD q0.budget = B
    rw [hbud]
    rfl
  · rw [if_neg h] at hq0eq
    subst hq0eq
    exact absurd (beq_iff_eq.mpr hqid) h

/-- C9 witness: completing `pr-1` (budget 100) while also setting budget 500
emits a transaction of `100 * (1/2)` even though the stored project now has
budget 500. -/
theorem updateProject_final_payment_old_budget_witness :
    ∃ t : Transaction,
      (updateProject updState "pr-1" patchDoneBudget).transactions =
        t :: updState.transactions ∧
      t.amount = 100 * (1/2) ∧
      ∀ q ∈ (updateProject updState "pr-1" patchDoneBudget).projects,
        q.id = "pr-1" → q.budget = 500 :=
  updateProject_final_payment_old_budget updState "pr-1" patchDoneBudget _ 500
    rfl rfl (by decide) rfl

/-! ## C2: characterization of `calculateProductCost` on acyclic catalogs -/

/-- An acyclicity certificate for the component graph: a rank that strictly
decreases along the component edges of the product each id resolves to, and
is bounded by the catalog size (every acyclic catalog admits one, e.g. the
longest-path rank). -/
def GoodRank (ps : List Product) (rank : String → Nat) : Prop :=
  (∀ p ∈ ps, findProduct ps p.id = some p →
    ∀ c ∈ p.components, rank c.product_id < rank p.id) ∧
  (∀ p ∈ ps, rank p.id ≤ ps.length)

instance (ps : List Product) (rank : String → Nat) : Decidable (GoodRank ps rank) := by
  unfold GoodRank
  infer_instance

theorem findProduct_mem {ps : List Product} {pid : String} {p : Product}
    (h : findProduct ps pid = some p) : p ∈ ps :=
  List.mem_of_find?_eq_some h

theorem findProduct_id {ps : List Product} {pid : String} {p : Product}
    (h : findProduct ps pid = some p) : p.id = pid := by
  have := List.find?_some h
  exact beq_iff_eq.mp this

theorem goodRank_edge {ps : List Product} {rank : String → Nat} (hr : GoodRank ps rank)
    {pid : String} {p : Product} (h : findProduct ps pid = some p) :
    ∀ c ∈ p.components, rank c.product_id < rank pid := by
  have hm := findProduct_mem h
  have hid := findProduct_id h
  have h2 : findProduct ps p.id = some p := by rw [hid]; exact h
  intro c hc
  have := hr.1 p hm h2 c hc
  rwa [hid] at this

theorem goodRank_le_length {ps : List Product} {rank : String → Nat} (hr : GoodRank ps rank)
    {pid : String} {p : Product} (h : findProduct ps pid = some p) :
    rank pid ≤ ps.length := by
  have hm := findProduct_mem h
  have hid := findProduct_id h
  have := hr.2 p hm
  rwa [hid] at this

theorem ccList_congr (ps : List Product) (f₁ f₂ : Nat) :
    ∀ L : List ProductComponent,
      (∀ c ∈ L, ccFuel ps f₁ c.product_id = ccFuel ps f₂ c.product_id) →
      ccList ps f₁ L = ccList ps f₂ L := by
  intro L
  induction L with
  | nil => intro _; simp [ccList]
  | cons c rest ih =>
      intro h
      simp only [ccList]
      rw [h c (List.mem_cons_self c rest), ih (fun d hd => h d (List.mem_cons_of_mem c hd))]

/-- On a catalog with an acyclicity certificate, `ccFuel` does not depend on
the fuel once the fuel exceeds the rank of the queried id. -/
theorem ccFuel_stable {ps : List Product} {rank : String → Nat} (hr : GoodRank ps rank) :
    ∀ (k : Nat) (pid : String) (f₁ f₂ : Nat), rank pid ≤ k →
      rank pid < f₁ → rank pid < f₂ → ccFuel ps f₁ pid = ccFuel ps f₂ pid := by
  intro k
  induction k using Nat.strong_induction_on with
  | _ k ih =>
    intro pid f₁ f₂ hk h1 h2
    match f₁, f₂ with
    | a + 1, b + 1 =>
      simp only [ccFuel]
      cases hf : findProduct ps pid with
      | none => rfl
      | some p =>
          by_cases ht : p.type = ProductType.material_bruto
          · simp [ht]
          · simp only [ht, if_neg, if_false]
            apply ccList_congr
            intro c hc
            have hclt : rank c.product_id < rank pid := goodRank_edge hr hf c hc
            exact ih (rank c.product_id) (Nat.lt_of_lt_of_le hclt hk) c.product_id a b
              (Nat.le_refl _) (by omega) (by omega)

theorem ccList_total (ps : List Product) (f : Nat) :
    ∀ L : List ProductComponent,
      (∀ c ∈ L, ∃ v, ccFuel ps f c.product_id = some v) →
      ∃ v, ccList ps f L = some v := by
  intro L
  induction L with
  | nil => intro _; exact ⟨0, by simp [ccList]⟩
  | cons c rest ih =>
      intro h
      obtain ⟨v, hv⟩ := h c (List.mem_cons_self c rest)
      obtain ⟨acc, hacc⟩ := ih (fun d hd => h d (List.mem_cons_of_mem c hd))
      exact ⟨v * c.quantity + acc, by simp only [ccList]; rw [hv, hacc]⟩

/-- On a catalog with an acyclicity certificate, `ccFuel` terminates (returns
`some`) whenever the fuel exceeds the rank of the queried id. -/
theorem ccFuel_total {ps : List Product} {rank : String → Nat} (hr : GoodRank ps rank) :
    ∀ (k : Nat) (pid : String) (f : Nat), rank pid ≤ k → rank pid < f →
      ∃ v, ccFuel ps f pid = some v := by
  intro k
  induction k using Nat.strong_induction_on with
  | _ k ih =>
    intro pid f hk h1
    match f with
    | a + 1 =>
      simp only [ccFuel]
      cases hf : findProduct ps pid with
      | none => exact ⟨0, rfl⟩
      | some p =>
          by_cases ht : p.type = ProductType.material_bruto
          · exact ⟨p.cost_price, by simp [ht]⟩
          · simp only [ht, if_false]
            apply ccList_total
            intro c hc
            have hclt : rank c.product_id < rank pid := goodRank_edge hr hf c hc
            exact ih (rank c.product_id) (Nat.lt_of_lt_of_le hclt hk) c.product_id a
              (Nat.le_refl _) (by omega)

theorem ccList_value (ps : List Product) (f : Nat) :
    ∀ L : List ProductComponent,
      (∀ c ∈ L, ccFuel ps f c.product_id = some (costValue ps c.product_id)) →
      ccList ps f L =
        some ((L.map (fun c => costValue ps c.product_id * c.quantity)).sum) := by
  intro L
  induction L with
  | nil => intro _; simp [ccList]
  | cons c rest ih =>
      intro h
      simp only [ccList]
      rw [h c (List.mem_cons_self c rest), ih (fun d hd => h d (List.mem_cons_of_mem c hd))]
      simp [List.sum_cons]

/-- The demo raw material `A` (cost 120). -/
def prodA : Product :=
  { id := "A", name := "Madeira Compensada", description := "Compensado 15mm",
    category := "Madeiras", type := ProductType.material_bruto, unit := "M2",
    components := [], cost_price := 120, sale_price := some 180, current_stock := 50,
    min_stock := 10, supplier := none, created_at := "" }

/-- The component reference `A x 2` (unit cost snapshot 120, line total 240). -/
def compA : ProductComponent :=
  { product_id := "A", product_name := "Madeira Compensada", quantity := 2,
    unit := "M2", unit_cost := 120, total_cost := 240 }

/-- The demo sub-assembly `B` = `[A x 2]`. -/
def prodB : Product :=
  { id := "B", name := "Mesa", description := "", category := "Moveis",
    type := ProductType.parte_produto, unit := "UN", components := [compA],
    cost_price := 0, sale_price := some 600, current_stock := 5, min_stock := 1,
    supplier := none, created_at := "" }

/-- The two-product demo catalog of the cost scenario. -/
def demoCatalog : List Product := [prodA, prodB]

/-- A rank certificate for `demoCatalog`. -/
def demoRank : String → Nat := fun s => if s = "B" then 1 else 0

/-- C2: on any catalog with an acyclicity certificate, `calculateProductCost`
terminates and satisfies the specified equations — `0` for an unknown id, the
stored `cost_price` for a raw material, and the component-weighted sum of
recursive costs otherwise; on the concrete catalog `{A: raw 120, B: [A x 2]}`
the cost of `B` is 240. -/
theorem calculateProductCost_characterization (ps : List Product) (rank : String → Nat)
    (hr : GoodRank ps rank) :
    (∀ pid, findProduct ps pid = none → calculateProductCost ps pid = some 0) ∧
    (∀ pid p, findProduct ps pid = some p → p.type = ProductType.material_bruto →
      calculateProductCost ps pid = some p.cost_price) ∧
    (∀ pid p, findProduct ps pid = some p → p.type ≠ ProductType.material_bruto →
      calculateProductCost ps pid =
        some ((p.components.map (fun c => costValue ps c.product_id * c.quantity)).sum)) ∧
    calculateProductCost demoCatalog "B" = some 240 := by
  refine ⟨?_, ?_, ?_, ?_⟩
  · intro pid h
    simp [calculateProductCost, ccFuel, h]
  · intro pid p h ht
    simp [calculateProductCost, ccFuel, h, ht]
  · intro pid p h ht
    have hrank : rank pid ≤ ps.length := goodRank_le_length hr h
    show ccFuel ps (ps.length + 1) pid = _
    simp only [ccFuel, h, ht, if_false]
    apply ccList_value
    intro c hc
    have hclt : rank c.product_id < rank pid := goodRank_edge hr h c hc
    have hlt : rank c.product_id < ps.length := by omega
    obtain ⟨v, hv⟩ := ccFuel_total hr (rank c.product_id) c.product_id (ps.length + 1)
      (Nat.le_refl _) (by omega)
    have hstab : ccFuel ps ps.length c.product_id = ccFuel ps (ps.length + 1) c.product_id :=
      ccFuel_stable hr (rank c.product_id) c.product_id ps.length (ps.length + 1)
        (Nat.le_refl _) hlt (by omega)
    rw [hstab, hv]
    unfold costValue calculateProductCost
    rw [hv]
    rfl
  · show ccFuel demoCatalog (1 + 1 + 1) "B" = some 240
    have e1 : findProduct demoCatalog "B" = some prodB := rfl
    have e2 : findProduct demoCatalog "A" = some prodA := rfl
    simp [ccFuel, ccList, e1, e2, prodA, prodB, compA]
    norm_num

/-- C2 witness: the characterization instantiated on the concrete demo
catalog and its rank certificate, evaluated at both products and at a
missing id. -/
theorem calculateProductCost_characterization_witness :
    calculateProductCost demoCatalog "A" = some 120 ∧
    calculateProductCost demoCatalog "nope" = some 0 ∧
    calculateProductCost demoCatalog "B" = some 240 := by
  have h := calculateProductCost_characterization demoCatalog demoRank (by decide)
  refine ⟨?_, ?_, h.2.2.2⟩
  · exact h.2.1 "A" prodA (by decide) (by decide)
  · exact h.1 "nope" (by decide)

/-! ## C4: `checkCircularReference` — termination and meaning -/

/-- One component edge: the product that `a` resolves to lists `b` among its
component ids. -/
def hasEdge (ps : List Product) (a b : String) : Prop :=
  ∃ p, findProduct ps a = some p ∧ ∃ c ∈ p.components, c.product_id = b

/-- Reflexive-transitive reachability through component edges. -/
inductive Reach (ps : List Product) : String → String → Prop
  | refl (a : String) : Reach ps a a
  | step {a b c : String} : hasEdge ps a b → Reach ps b c → Reach ps a c

theorem ckList_char (ps : List Product) (f : Nat) (pid : String) (P : String → Prop) :
    ∀ L : List ProductComponent,
      (∀ c ∈ L, ∃ b, ckFuel ps f pid c.product_id = some b ∧ (b = true ↔ P c.product_id)) →
      ∃ b, ckList ps f pid L = some b ∧ (b = true ↔ ∃ c ∈ L, P c.product_id) := by
  intro L
  induction L with
  | nil => intro _; exact ⟨false, by simp [ckList], by simp⟩
  | cons c rest ih =>
      intro h
      obtain ⟨b, hb, hbiff⟩ := h c (List.mem_cons_self c rest)
      cases b with
      | true =>
          refine ⟨true, by simp [ckList, hb], ?_⟩
          simp only [true_iff]
          exact ⟨c, List.mem_cons_self c rest, hbiff.mp rfl⟩
      | false =>
          obtain ⟨b', hb', hiff'⟩ := ih (fun d hd => h d (List.mem_cons_of_mem c hd))
          refine ⟨b', by simp [ckList, hb, hb'], ?_⟩
          rw [hiff']
          constructor
          · rintro ⟨d, hd, hPd⟩
            exact ⟨d, List.mem_cons_of_mem c hd, hPd⟩
          · rintro ⟨d, hd, hPd⟩
            rcases List.mem_cons.mp hd with rfl | hd
            · exact absurd (hbiff.mpr hPd) (by simp)
            · exact ⟨d, hd, hPd⟩

/-- On a catalog with an acyclicity certificate, `ckFuel` returns `some` as
soon as the fuel exceeds the rank of the start node, and its answer is
reachability of the candidate from the start node. -/
theorem ckFuel_char {ps : List Product} {rank : String → Nat} (hr : GoodRank ps rank) :
    ∀ (k : Nat) (cid pid : String) (f : Nat), rank cid ≤ k → rank cid < f →
      ∃ b, ckFuel ps f pid cid = some b ∧ (b = true ↔ Reach ps cid pid) := by
  intro k
  induction k using Nat.strong_induction_on with
  | _ k ih =>
    intro cid pid f hk h1
    match f with
    | m + 1 =>
      by_cases heq : pid = cid
      · subst heq
        exact ⟨true, by simp [ckFuel], by simp [Reach.refl]⟩
      · cases hf : findProduct ps cid with
        | none =>
            refine ⟨false, by simp [ckFuel, heq, hf], ?_⟩
            simp only [Bool.false_eq_true, false_iff]
            intro hR
            cases hR with
            | refl => exact heq rfl
            | step he _ =>
                obtain ⟨p, hp, _⟩ := he
                rw [hf] at hp
                cases hp
        | some p =>
            obtain ⟨b, hb, hbiff⟩ := ckList_char ps m pid (fun x => Reach ps x pid)
              p.components (by
                intro c hc
                have hclt : rank c.product_id < rank cid := goodRank_edge hr hf c hc
                exact ih (rank c.product_id) (Nat.lt_of_lt_of_le hclt hk) c.product_id pid m
                  (Nat.le_refl _) (by omega))
            refine ⟨b, by simp [ckFuel, heq, hf, hb], ?_⟩
            rw [hbiff]
            constructor
            · rintro ⟨c, hc, hcR⟩
              exact Reach.step ⟨p, hf, c, hc, rfl⟩ hcR
            · intro hR
              cases hR with
              | refl => exact absurd rfl heq
              | step he hR' =>
                  obtain ⟨q, hq, c, hc, hcb⟩ := he
                  rw [hf] at hq
                  cases hq
                  exact ⟨c, hc, hcb ▸ hR'⟩

/-- C4 (amended): on any catalog with an acyclicity certificate,
`checkCircularReference` terminates and returns true exactly when the
proposed component equals the candidate or reaches it through component
edges; on a catalog with a cycle reachable from the start node but avoiding
the candidate, the recursion exhausts every fuel bound instead (see the
counterexample). -/
theorem checkCircularReference_characterization (ps : List Product) (rank : String → Nat)
    (hr : GoodRank ps rank) (pid cid : String) :
    ∃ b, checkCircularReference ps pid cid = some b ∧ (b = true ↔ Reach ps cid pid) := by
  by_cases heq : pid = cid
  · subst heq
    exact ⟨true, by simp [checkCircularReference, ckFuel], by simp [Reach.refl]⟩
  · cases hf : findProduct ps cid with
    | none =>
        refine ⟨false, by simp [checkCircularReference, ckFuel, heq, hf], ?_⟩
        simp only [Bool.false_eq_true, false_iff]
        intro hR
        cases hR with
        | refl => exact heq rfl
        | step he _ =>
            obtain ⟨p, hp, _⟩ := he
            rw [hf] at hp
            cases hp
    | some p =>
        have hrank : rank cid ≤ ps.length := goodRank_le_length hr hf
        exact ckFuel_char hr (rank cid) cid pid (ps.length + 1) (Nat.le_refl _) (by omega)

/-- C4 witness: the characterization instantiated on the concrete demo
catalog: proposing component `B` for candidate `A` terminates, and its
answer decides `Reach demoCatalog "B" "A"`. -/
theorem checkCircularReference_characterization_witness :
    ∃ b, checkCircularReference demoCatalog "A" "B" = some b ∧
      (b = true ↔ Reach demoCatalog "B" "A") :=
  checkCircularReference_characterization demoCatalog demoRank (by decide) "A" "B"

/-- The recursion of `checkCircularReference` exceeds every fuel bound:
the shallow rendering of "the source function does not terminate here". -/
def CheckDiverges (ps : List Product) (pid cid : String) : Prop :=
  ∀ fuel, ckFuel ps fuel pid cid = none

/-- A component reference to product id `t` (costs irrelevant). -/
def compRef (t : String) : ProductComponent :=
  { product_id := t, product_name := t, quantity := 1, unit := "UN",
    unit_cost := 0, total_cost := 0 }

/-- Product `X` listing `Y` as a component. -/
def prodX : Product :=
  { id := "X", name := "X", description := "", category := "",
    type := ProductType.parte_produto, unit := "UN", components := [compRef "Y"],
    cost_price := 0, sale_price := none, current_stock := 0, min_stock := 0,
    supplier := none, created_at := "" }

/-- Product `Y` listing `X` as a component. -/
def prodY : Product :=
  { id := "Y", name := "Y", description := "", category := "",
    type := ProductType.parte_produto, unit := "UN", components := [compRef "X"],
    cost_price := 0, sale_price := none, current_stock := 0, min_stock := 0,
    supplier := none, created_at := "" }

/-- A catalog that (incorrectly) already contains the cycle `X ↔ Y`. -/
def cycCatalog : List Product := [prodX, prodY]

/-- C4 counterexample: on the catalog with the cycle `X ↔ Y` — a cycle among
products other than the candidate `Z` — the check of candidate `Z` against
proposed component `X` does not terminate: it exhausts every fuel bound (in
particular the canonical call returns no verdict), refuting "terminates for
every finite product catalog". -/
theorem checkCircularReference_cycle_counterexample :
    CheckDiverges cycCatalog "Z" "X" ∧ checkCircularReference cycCatalog "Z" "X" = none := by
  have eX : findProduct cycCatalog "X" = some prodX := rfl
  have eY : findProduct cycCatalog "Y" = some prodY := rfl
  have key : ∀ f, ckFuel cycCatalog f "Z" "X" = none ∧ ckFuel cycCatalog f "Z" "Y" = none := by
    intro f
    induction f with
    | zero => exact ⟨by simp [ckFuel], by simp [ckFuel]⟩
    | succ f ih =>
        constructor
        · simp [ckFuel, ckList, eX, prodX, compRef, ih.2]
        · simp [ckFuel, ckList, eY, prodY, compRef, ih.1]
  exact ⟨fun fuel => (key fuel).1, (key (cycCatalog.length + 1)).1⟩

/-! ## C10: `addProduct` cannot hit the circular-reference branch -/

/-- Nothing reaches an id that no component anywhere references. -/
theorem reach_fresh_eq {ps : List Product} {t : String}
    (hcomp : ∀ p ∈ ps, ∀ c ∈ p.components, c.product_id ≠ t) :
    ∀ x, Reach ps x t → x = t := by
  intro x hR
  induction hR with
  | refl => rfl
  | step he _ ih =>
      obtain ⟨p, hp, c, hc, hcb⟩ := he
      exact absurd (hcb.trans (ih hcomp)) (hcomp p (findProduct_mem hp) c hc)

theorem circAny_false (ps : List Product) (tid : String) :
    ∀ L : List ProductComponent,
      (∀ c ∈ L, checkCircularReference ps tid c.product_id = some false) →
      circAny ps tid L = some false := by
  intro L
  induction L with
  | nil => intro _; rfl
  | cons c rest ih =>
      intro h
      simp only [circAny, h c (List.mem_cons_self c rest)]
      exact ih (fun d hd => h d (List.mem_cons_of_mem c hd))

/-- C10: on an acyclic catalog, creating a product whose components all
reference existing products never raises the circular-reference error — the
check runs against a freshly generated id that no product carries and no
component references, so it answers `false` everywhere and the product is
inserted. -/
theorem addProduct_no_circular_error (s : AppState) (rank : String → Nat) (pd : Product)
    (hr : GoodRank s.products rank)
    (hidsfresh : ∀ p ∈ s.products, p.id ≠ genId s.nextId)
    (hcompfresh : ∀ p ∈ s.products, ∀ c ∈ p.components, c.product_id ≠ genId s.nextId)
    (href : ∀ c ∈ pd.components, ∃ p ∈ s.products, c.product_id = p.id) :
    ∃ (s' : AppState) (newP : Product),
      addProduct s pd = some (Except.ok s') ∧ s'.products = newP :: s.products := by
  unfold addProduct addProductWith
  by_cases hlen : pd.components.length > 0
  · rw [if_pos hlen]
    have hall : ∀ c ∈ pd.components,
        checkCircularReference s.products (genId s.nextId) c.product_id = some false := by
      intro c hc
      obtain ⟨p, hp, hcid⟩ := href c hc
      have hfind : (findProduct s.products c.product_id).isSome := by
        apply List.find?_isSome.mpr
        exact ⟨p, hp, beq_iff_eq.mpr hcid.symm⟩
      obtain ⟨q, hq⟩ := Option.isSome_iff_exists.mp hfind
      have hrank : rank c.product_id ≤ s.products.length := goodRank_le_length hr hq
      obtain ⟨b, hb, hbiff⟩ := ckFuel_char hr (rank c.product_id) c.product_id
        (genId s.nextId) (s.products.length + 1) (Nat.le_refl _) (by omega)
      cases b with
      | true =>
          have hreach := hbiff.mp rfl
          have : c.product_id = genId s.nextId := reach_fresh_eq hcompfresh _ hreach
          exact absurd (hcid.symm.trans this) (hidsfresh p hp)
      | false => exact hb
    simp only [circAny_false _ _ _ hall]
    exact ⟨_, _, rfl, rfl⟩
  · rw [if_neg hlen]
    exact ⟨_, _, rfl, rfl⟩

/-- A store whose catalog is the (acyclic) demo catalog. -/
def demoState : AppState := { emptyState with products := demoCatalog }

/-- Creation input for a composite product made of `A`. -/
def newComposite : Product :=
  { id := "", name := "Banco", description := "", category := "Moveis",
    type := ProductType.produto_pronto, unit := "UN", components := [compA],
    cost_price := 0, sale_price := none, current_stock := 0, min_stock := 0,
    supplier := none, created_at := "" }

/-- C10 witness: adding the composite (components referencing the existing
`A`) to the acyclic demo catalog succeeds and inserts. -/
theorem addProduct_no_circular_error_witness :
    ∃ (s' : AppState) (newP : Product),
      addProduct demoState newComposite = some (Except.ok s') ∧
      s'.products = newP :: demoState.products :=
  addProduct_no_circular_error demoState demoRank newComposite (by decide) (by decide)
    (by decide) (by decide)

/-! ## C6: the stock cascade of `processProjectStockMovement` -/

/-- The business content of a stock movement: every field except the
generated `id`/`created_at`. -/
structure MovementData where
  product_id : String
  product_name : String
  type : FlowType
  quantity : ℚ
  unit_price : Option ℚ
  total_value : Option ℚ
  project_id : Option String
  project_title : Option String
  date : String
deriving DecidableEq

/-- Forgets the generated identity fields of a movement. -/
def movKey (m : StockMovement) : MovementData :=
  { product_id := m.product_id, product_name := m.product_name, type := m.type,
    quantity := m.quantity, unit_price := m.unit_price, total_value := m.total_value,
    project_id := m.project_id, project_title := m.project_title, date := m.date }

/-- The component movement the claim specifies for line item `item` and
component `c`. -/
def compEntry (projectId today : String) (item : ProjectProduct)
    (c : ProductComponent) : MovementData :=
  { product_id := c.product_id, product_name := c.product_name, type := FlowType.saida,
    quantity := c.quantity * item.quantity, unit_price := some c.unit_cost,
    total_value := some (c.total_cost * item.quantity), project_id := some projectId,
    project_title := none, date := today }

/-- The movements the claim specifies for one line item, in emission order:
nothing if the product is unknown; otherwise one `saida` movement at the full
line quantity and price, followed by one scaled movement per direct component
when the product is composite (and nothing deeper). -/
def emitSpec (snapshot : List Product) (projectId today : String)
    (item : ProjectProduct) : List MovementData :=
  match findProduct snapshot item.product_id with
  | none => []
  | some product =>
      { product_id := product.id, product_name := product.name, type := FlowType.saida,
        quantity := item.quantity, unit_price := some item.unit_price,
        total_value := some item.total_price, project_id := some projectId,
        project_title := none, date := today } ::
      (if product.type ≠ ProductType.material_bruto then
        product.components.map (compEntry projectId today item)
      else [])

theorem addStockMovement_movKey (st : AppState) (m : StockMovement) :
    (addStockMovement st m).stockMovements.map movKey =
      movKey m :: st.stockMovements.map movKey := rfl

theorem compLoop_movKey (pid today : String) (item : ProjectProduct) :
    ∀ (cs : List ProductComponent) (st : AppState), st.today = today →
      (compLoop pid item st cs).stockMovements.map movKey =
        (cs.map (compEntry pid today item)).reverse ++ st.stockMovements.map movKey := by
  intro cs
  induction cs with
  | nil => intro st h; simp [compLoop]
  | cons c rest ih =>
      intro st h
      show (compLoop pid item (addStockMovement st _) rest).stockMovements.map movKey = _
      rw [ih _ (by rw [addStockMovement_today]; exact h)]
      rw [addStockMovement_movKey]
      simp [compEntry, movKey, h]

theorem processLoop_movKey (snap : List Product) (pid today : String) :
    ∀ (items : List ProjectProduct) (st : AppState), st.today = today →
      (processLoop snap pid st items).stockMovements.map movKey =
        ((items.map (emitSpec snap pid today)).flatten).reverse
          ++ st.stockMovements.map movKey := by
  intro items
  induction items with
  | nil => intro st h; simp [processLoop]
  | cons item rest ih =>
      intro st h
      simp only [processLoop]
      cases hf : findProduct snap item.product_id with
      | none =>
          rw [ih st h]
          simp [emitSpec, hf]
      | some product =>
          dsimp only
          by_cases ht : product.type ≠ ProductType.material_bruto
          · rw [if_pos ht]
            rw [ih _ (by rw [compLoop_today, addStockMovement_today]; exact h)]
            rw [compLoop_movKey pid today item product.components _
              (by rw [addStockMovement_today]; exact h)]
            rw [addStockMovement_movKey]
            simp [emitSpec, hf, ht, movKey, compEntry, h, List.reverse_append]
          · rw [if_neg ht]
            rw [ih _ (by rw [addStockMovement_today]; exact h)]
            rw [addStockMovement_movKey]
            simp [emitSpec, hf, ht, movKey, h, List.reverse_append]

/-- Selling 3 units of `B` at unit price 600. -/
def itemB : ProjectProduct :=
  { id := "li1", product_id := "B", product_name := "Mesa", quantity := 3,
    unit_price := 600, total_price := 1800 }

/-- C6: the cascade emits, per line item whose product exists, one `saida`
movement at the full line quantity/price followed by one scaled `saida`
movement per direct component when the product is composite — and nothing
else (in particular nothing for deeper sub-assembly levels, which `emitSpec`
never descends into).  Selling 3 units of `B = [A x 2]` yields exactly the
movement for `B` (qty 3) and the movement for `A` (qty 6, total 720). -/
theorem processProjectStockMovement_cascade :
    (∀ (s : AppState) (pid : String) (items : List ProjectProduct),
      (processProjectStockMovement s pid items).stockMovements.map movKey =
        ((items.map (emitSpec s.products pid s.today)).flatten).reverse
          ++ s.stockMovements.map movKey) ∧
    (processProjectStockMovement demoState "pj-1" [itemB]).stockMovements.map movKey =
      [{ product_id := "A", product_name := "Madeira Compensada", type := FlowType.saida,
         quantity := 6, unit_price := some 120, total_value := some 720,
         project_id := some "pj-1", project_title := none, date := "2026-01-01" },
       { product_id := "B", product_name := "Mesa", type := FlowType.saida,
         quantity := 3, unit_price := some 600, total_value := some 1800,
         project_id := some "pj-1", project_title := none, date := "2026-01-01" }] := by
  constructor
  · intro s pid items
    exact processLoop_movKey s.products pid s.today items s rfl
  · have e1 : findProduct demoCatalog "B" = some prodB := rfl
    simp [processProjectStockMovement, processLoop, compLoop, addStockMovement, movKey,
      itemB, e1, prodB, prodA, compA, demoState, emptyState]
    norm_num

/-! ## C1: the ledger/counter stock invariant -/

/-- The signed contribution of one movement (inflow adds, outflow
subtracts). -/
def signedQty (m : StockMovement) : ℚ :=
  if m.type = FlowType.entrada then m.quantity else -m.quantity

/-- Signed sum of the movements of product `pid` in the ledger. -/
def movementSum (ms : List StockMovement) (pid : String) : ℚ :=
  ((ms.filter (fun m => m.product_id == pid)).map signedQty).sum

/-- The claimed invariant: each product's counter equals its baseline
("initial stock") plus the signed sum of its movements in the store. -/
def StockConsistent (s : AppState) (base : String → ℚ) : Prop :=
  ∀ p ∈ s.products, p.current_stock = base p.id + movementSum s.stockMovements p.id

theorem movementSum_cons (nm : StockMovement) (ms : List StockMovement) (pid : String) :
    movementSum (nm :: ms) pid =
      (if nm.product_id = pid then signedQty nm else 0) + movementSum ms pid := by
  by_cases h : nm.product_id = pid
  · simp [movementSum, List.filter_cons, h]
  · simp [movementSum, List.filter_cons, h]

theorem movementSum_eq_zero (ms : List StockMovement) (pid : String)
    (h : ∀ m ∈ ms, m.product_id ≠ pid) : movementSum ms pid = 0 := by
  have : ms.filter (fun m => m.product_id == pid) = [] := by
    apply List.filter_eq_nil_iff.mpr
    intro m hm
    simpa using h m hm
  simp [movementSum, this]

/-- If two states agree on products and movements, consistency carries
over. -/
theorem stockConsistent_of_fields {s s' : AppState} {base : String → ℚ}
    (h : StockConsistent s base) (hp : s'.products = s.products)
    (hm : s'.stockMovements = s.stockMovements) : StockConsistent s' base := by
  intro p hmem
  rw [hp] at hmem
  rw [hm]
  exact h p hmem

theorem addStockMovement_consistent {s : AppState} {base : String → ℚ}
    (h : StockConsistent s base) (m : StockMovement) :
    StockConsistent (addStockMovement s m) base := by
  intro p' hp'
  obtain ⟨p, hp, rfl⟩ := List.mem_map.mp hp'
  show _ = base _ + movementSum (_ :: s.stockMovements) _
  by_cases hid : p.id = m.product_id
  · rw [if_pos (beq_iff_eq.mpr hid)]
    rw [movementSum_cons]
    have hbase := h p hp
    by_cases hty : m.type = FlowType.entrada
    · simp only [hty, if_pos, signedQty]
      simp [hid, hbase]
      ring
    · simp only [signedQty, hty, if_neg, if_false]
      simp [hid, hbase]
      ring
  · rw [if_neg (by simpa using hid)]
    rw [movementSum_cons]
    rw [if_neg (fun hc => hid (hc.symm))]
    have hbase := h p hp
    simp [hbase]

theorem compLoop_consistent {base : String → ℚ} (pid : String) (item : ProjectProduct) :
    ∀ (cs : List ProductComponent) (st : AppState), StockConsistent st base →
      StockConsistent (compLoop pid item st cs) base := by
  intro cs
  induction cs with
  | nil => intro st h; exact h
  | cons c rest ih =>
      intro st h
      exact ih _ (addStockMovement_consistent h _)

theorem processLoop_consistent {base : String → ℚ} (snap : List Product) (pid : String) :
    ∀ (items : List ProjectProduct) (st : AppState), StockConsistent st base →
      StockConsistent (processLoop snap pid st items) base := by
  intro items
  induction items with
  | nil => intro st h; exact h
  | cons item rest ih =>
      intro st h
      simp only [processLoop]
      cases hf : findProduct snap item.product_id with
      | none => exact ih st h
      | some product =>
          dsimp only
          by_cases ht : product.type ≠ ProductType.material_bruto
          · rw [if_pos ht]
            exact ih _ (compLoop_consistent pid item _ _ (addStockMovement_consistent h _))
          · rw [if_neg ht]
            exact ih _ (addStockMovement_consistent h _)

theorem addProject_consistent {s : AppState} {base : String → ℚ}
    (h : StockConsistent s base) (pd : Project) :
    StockConsistent (addProject s pd) base := by
  simp only [addProject, addProjectWith]
  by_cases hc : pd.type = ProjectKind.venda ∧ pd.status ≠ ProjectStatus.orcamento
  · rw [if_pos hc]
    by_cases h2 : pd.products.length > 0
    · rw [if_pos h2]
      exact processLoop_consistent _ _ _ _ (stockConsistent_of_fields h rfl rfl)
    · rw [if_neg h2]
      exact stockConsistent_of_fields h rfl rfl
  · rw [if_neg hc]
    exact stockConsistent_of_fields h rfl rfl

theorem updateProduct_map_consistent {s : AppState} {base : String → ℚ} (product : Product)
    (h : StockConsistent s base)
    (hstock : ∀ p ∈ s.products, p.id = product.id → product.current_stock = p.current_stock) :
    StockConsistent
      { s with products := s.products.map (fun p => if p.id == product.id then product else p) }
      base := by
  intro p' hp'
  obtain ⟨p, hp, rfl⟩ := List.mem_map.mp hp'
  by_cases hid : p.id = product.id
  · rw [if_pos (beq_iff_eq.mpr hid)]
    show product.current_stock = base product.id + movementSum s.stockMovements product.id
    rw [hstock p hp hid, ← hid]
    exact h p hp
  · rw [if_neg (by simpa using hid)]
    exact h p hp

theorem updateProduct_consistent {s : AppState} {base : String → ℚ} {product : Product}
    {s' : AppState} (h : StockConsistent s base)
    (hok : updateProduct s product = some (Except.ok s'))
    (hstock : ∀ p ∈ s.products, p.id = product.id → product.current_stock = p.current_stock) :
    StockConsistent s' base := by
  simp only [updateProduct] at hok
  by_cases hlen : product.components.length > 0
  · rw [if_pos hlen] at hok
    cases hcirc : circAny s.products product.id product.components with
    | none => rw [hcirc] at hok; simp at hok
    | some b =>
        cases b with
        | true => rw [hcirc] at hok; simp at hok
        | false =>
            rw [hcirc] at hok
            simp only [Option.some.injEq, Except.ok.injEq] at hok
            rw [← hok]
            exact updateProduct_map_consistent product h hstock
  · rw [if_neg hlen] at hok
    simp only [Option.some.injEq, Except.ok.injEq] at hok
    rw [← hok]
    exact updateProduct_map_consistent product h hstock

theorem addProduct_consistent {s : AppState} {base : String → ℚ} {pd : Product}
    {s' : AppState} (h : StockConsistent s base)
    (hok : addProduct s pd = some (Except.ok s'))
    (hfreshm : ∀ m ∈ s.stockMovements,
      m.product_id ≠ genId s.nextId ∧ m.product_id ≠ genId (s.nextId + 1))
    (hfreshp : ∀ p ∈ s.products, p.id ≠ genId s.nextId ∧ p.id ≠ genId (s.nextId + 1)) :
    ∃ newP : Product, s'.products = newP :: s.products ∧
      StockConsistent s' (Function.update base newP.id newP.current_stock) := by
  simp only [addProduct, addProductWith] at hok
  by_cases hlen : pd.components.length > 0
  · rw [if_pos hlen] at hok
    cases hcirc : circAny s.products (genId s.nextId) pd.components with
    | none => rw [hcirc] at hok; simp at hok
    | some b =>
        cases b with
        | true => rw [hcirc] at hok; simp at hok
        | false =>
            rw [hcirc] at hok
            simp only [Option.some.injEq, Except.ok.injEq] at hok
            refine ⟨{ pd with id := genId (s.nextId + 1), created_at := s.nowIso }, ?_, ?_⟩
            · rw [← hok]
            · rw [← hok]
              intro p hp
              rcases List.mem_cons.mp hp with rfl | hp
              · show pd.current_stock = _
                rw [Function.update_same]
                rw [movementSum_eq_zero _ _ (fun m hm => (hfreshm m hm).2)]
                ring
              · show p.current_stock = _
                rw [Function.update_noteq (hfreshp p hp).2]
                exact h p hp
  · rw [if_neg hlen] at hok
    simp only [Option.some.injEq, Except.ok.injEq] at hok
    refine ⟨{ pd with id := genId s.nextId, created_at := s.nowIso }, ?_, ?_⟩
    · rw [← hok]
    · rw [← hok]
      intro p hp
      rcases List.mem_cons.mp hp with rfl | hp
      · show pd.current_stock = _
        rw [Function.update_same]
        rw [movementSum_eq_zero _ _ (fun m hm => (hfreshm m hm).1)]
        ring
      · show p.current_stock = _
        rw [Function.update_noteq (hfreshp p hp).1]
        exact h p hp

/-- C1 (amended): starting from any store where each product's counter equals
its baseline plus the signed sum of its movements, `addStockMovement`,
`processProjectStockMovement` and `addProject` (cascade included) preserve
the invariant; a successful `addProduct` preserves it with the baseline
extended at the fresh id by the new product's opening stock; a successful
`updateProduct` preserves it provided the supplied record keeps
`current_stock` unchanged.  `deleteProject` — and an `updateProduct` that
rewrites `current_stock` — break it (see the counterexample). -/
theorem stock_ledger_invariant (s : AppState) (base : String → ℚ)
    (h : StockConsistent s base) :
    (∀ m : StockMovement, StockConsistent (addStockMovement s m) base) ∧
    (∀ (pid : String) (items : List ProjectProduct),
      StockConsistent (processProjectStockMovement s pid items) base) ∧
    (∀ pd : Project, StockConsistent (addProject s pd) base) ∧
    (∀ (pd : Product) (s' : AppState), addProduct s pd = some (Except.ok s') →
      (∀ m ∈ s.stockMovements,
        m.product_id ≠ genId s.nextId ∧ m.product_id ≠ genId (s.nextId + 1)) →
      (∀ p ∈ s.products, p.id ≠ genId s.nextId ∧ p.id ≠ genId (s.nextId + 1)) →
      ∃ newP : Product, s'.products = newP :: s.products ∧
        StockConsistent s' (Function.update base newP.id newP.current_stock)) ∧
    (∀ (product : Product) (s' : AppState), updateProduct s product = some (Except.ok s') →
      (∀ p ∈ s.products, p.id = product.id → product.current_stock = p.current_stock) →
      StockConsistent s' base) := by
  refine ⟨?_, ?_, ?_, ?_, ?_⟩
  · exact fun m => addStockMovement_consistent h m
  · exact fun pid items => processLoop_consistent _ _ _ _ h
  · exact fun pd => addProject_consistent h pd
  · exact fun pd s' hok hfm hfp => addProduct_consistent h hok hfm hfp
  · exact fun product s' hok hstock => updateProduct_consistent h hok hstock

/-- A product `p1` created with opening stock 10. -/
def stockProduct : Product :=
  { id := "p1", name := "Tabua", description := "", category := "",
    type := ProductType.material_bruto, unit := "UN", components := [],
    cost_price := 10, sale_price := none, current_stock := 10, min_stock := 0,
    supplier := none, created_at := "" }

/-- A store holding only `p1`, with an empty ledger. -/
def stockState : AppState := { emptyState with products := [stockProduct] }

/-- Baseline: every product started at 10. -/
def baseTen : String → ℚ := fun _ => 10

/-- An outflow of 4 units of `p1` on behalf of project `pj`. -/
def saleMove : StockMovement :=
  { id := "", product_id := "p1", product_name := "Tabua", type := FlowType.saida,
    quantity := 4, unit_price := none, total_value := none, project_id := some "pj",
    project_title := none, date := "2026-01-01", created_at := "" }

/-- The store after applying the outflow: counter 6, ledger sum `-4`. -/
def stockState2 : AppState := addStockMovement stockState saleMove

/-- C1 counterexample: after the outflow the invariant holds (6 = 10 - 4),
but `deleteProject "pj"` removes the movement WITHOUT restoring the counter
(6 ≠ 10 + 0), and `updateProduct` with a record carrying a different
`current_stock` overwrites the counter (99 ≠ 10 + 0) — so not every listed
operation preserves the invariant. -/
theorem stock_ledger_invariant_counterexample :
    StockConsistent stockState2 baseTen ∧
    ¬ StockConsistent (deleteProject stockState2 "pj") baseTen ∧
    (updateProduct stockState { stockProduct with current_stock := 99 } =
        some (Except.ok { stockState with
          products := [{ stockProduct with current_stock := 99 }] }) ∧
      ¬ StockConsistent
        { stockState with products := [{ stockProduct with current_stock := 99 }] }
        baseTen) := by
  refine ⟨?_, ?_, ?_, ?_⟩
  · intro p hp
    simp [stockState2, stockState, emptyState, addStockMovement, stockProduct, saleMove,
      genId_zero] at hp
    subst hp
    simp [baseTen, movementSum, signedQty, stockState2, stockState, emptyState,
      addStockMovement, saleMove, List.filter_cons, List.filter_nil]
    try norm_num
  · intro hcon
    have hp : ({ stockProduct with current_stock := (10 : ℚ) - 4 } : Product) ∈
        (deleteProject stockState2 "pj").products := by
      simp [deleteProject, stockState2, stockState, emptyState, addStockMovement,
        stockProduct, saleMove, genId_zero]
    have := hcon _ hp
    rw [movementSum_eq_zero] at this
    · norm_num [baseTen] at this
    · intro m hm
      simp [deleteProject, stockState2, stockState, emptyState, addStockMovement,
        saleMove, List.filter_cons, List.filter_nil] at hm
  · rfl
  · intro hcon
    have hp : ({ stockProduct with current_stock := (99 : ℚ) } : Product) ∈
        ({ stockState with
          products := [{ stockProduct with current_stock := 99 }] } : AppState).products := by
      simp
    have := hcon _ hp
    rw [movementSum_eq_zero] at this
    · norm_num [baseTen] at this
    · intro m hm
      simp [stockState, emptyState] at hm

/-- A raw-material creation input with opening stock 7. -/
def newRaw : Product := { stockProduct with id := "", name := "Prego", current_stock := 7 }

/-- The store produced by adding `newRaw` to `stockState`. -/
def addRawState : AppState :=
  { stockState with
    products := { newRaw with
      id := genId stockState.nextId
      created_at := stockState.nowIso } :: stockState.products,
    nextId := stockState.nextId + 1 }

/-- C1 witness: the preservation statement instantiated on the concrete
one-product store, exercising every conjunct with its hypotheses
discharged. -/
theorem stock_ledger_invariant_witness :
    StockConsistent (addStockMovement stockState saleMove) baseTen ∧
    StockConsistent (processProjectStockMovement stockState "pj" [itemB]) baseTen ∧
    StockConsistent (addProject stockState (quoteProject "x")) baseTen ∧
    (∃ newP : Product, addRawState.products = newP :: stockState.products ∧
      StockConsistent addRawState (Function.update baseTen newP.id newP.current_stock)) ∧
    StockConsistent { stockState with products := [stockProduct] } baseTen := by
  have h0 : StockConsistent stockState baseTen := by
    intro p hp
    simp [stockState, emptyState] at hp
    subst hp
    simp [baseTen, movementSum, stockProduct, stockState, emptyState]
  have H := stock_ledger_invariant stockState baseTen h0
  refine ⟨H.1 saleMove, H.2.1 "pj" [itemB], H.2.2.1 (quoteProject "x"), ?_, ?_⟩
  · exact H.2.2.2.1 newRaw addRawState rfl (by simp [stockState, emptyState])
      (by
        intro p hp
        simp [stockState, emptyState] at hp
        subst hp
        decide)
  · exact H.2.2.2.2 stockProduct _ rfl
      (by
        intro p hp
        simp [stockState, emptyState] at hp
        subst hp
        intro _
        rfl)

/-! ## C7: the dashboard's monthly revenue -/

theorem foldl_add_amount (l : List Transaction) :
    ∀ a : ℚ, l.foldl (fun sum t => sum + t.amount) a = a + (l.map (fun t => t.amount)).sum := by
  induction l with
  | nil => intro a; simp
  | cons t rest ih =>
      intro a
      simp only [List.foldl_cons, List.map_cons, List.sum_cons, ih]
      ring

/-- The monthly revenue the claim specifies: inflow transactions of the
current calendar month — same month AND same year as the current date. -/
def monthlyRevenueSpec (s : AppState) : ℚ :=
  ((s.transactions.filter (fun t =>
      t.type == FlowType.entrada &&
      (jsMonth t.date == jsMonth s.today && jsYear t.date == jsYear s.today))).map
    (fun t => t.amount)).sum

/-- C7 (amended): `monthlyRevenue` is the sum of the amounts of exactly those
transactions that are inflows whose date's MONTH NUMBER equals the current
month number — the year is not compared, so the same month of a different
year is included (see the counterexample against the year-aware
`monthlyRevenueSpec`). -/
theorem monthlyRevenue_same_month_any_year (s : AppState) :
    (getDashboardStats s).monthlyRevenue =
      ((s.transactions.filter (fun t =>
          t.type == FlowType.entrada && jsMonth t.date == jsMonth s.today)).map
        (fun t => t.amount)).sum := by
  show (s.transactions.filter _).foldl _ 0 = _
  rw [foldl_add_amount]
  ring

/-- An inflow of 100 dated October 2025. -/
def oldTx : Transaction :=
  { id := "t1", project_id := none, project_title := none, type := FlowType.entrada,
    category := "Sinal", description := "", amount := 100, date := "2025-10-05",
    created_at := "" }

/-- A store whose clock reads October 2026 and whose only transaction is the
October 2025 inflow. -/
def dashState : AppState :=
  { emptyState with transactions := [oldTx], today := "2026-10-11" }

/-- C7 counterexample: with the clock in October 2026, an inflow dated
October 2025 — same month of a DIFFERENT year — is counted: the dashboard
reports 100 while the claimed month-and-year sum is 0. -/
theorem monthlyRevenue_year_counterexample :
    (getDashboardStats dashState).monthlyRevenue = 100 ∧
    monthlyRevenueSpec dashState = 0 ∧
    jsMonth oldTx.date = jsMonth dashState.today ∧
    jsYear oldTx.date ≠ jsYear dashState.today := by
  have h1 : ((oldTx.type == FlowType.entrada) &&
      (jsMonth oldTx.date == jsMonth dashState.today)) = true := by decide
  have h2 : ((oldTx.type == FlowType.entrada) &&
      (jsMonth oldTx.date == jsMonth dashState.today &&
        jsYear oldTx.date == jsYear dashState.today)) = true → False := by decide
  refine ⟨?_, ?_, by decide, by decide⟩
  · show ([oldTx].filter _).foldl _ 0 = 100
    rw [List.filter_cons]
    simp only [h1]
    show ([oldTx].foldl _ 0) = 100
    simp [oldTx]
  · show (([oldTx].filter _).map _).sum = 0
    rw [List.filter_cons]
    cases hb : ((oldTx.type == FlowType.entrada) &&
        (jsMonth oldTx.date == jsMonth dashState.today &&
          jsYear oldTx.date == jsYear dashState.today)) with
    | true => exact absurd hb h2
    | false => simp

/-! ## C8: CSV export / import round trips

JS strings are modelled at the character level (`List Char`): the CSV blob is
a char list, `join('\n')` / `split('\n')` / `trim()` / the `parseCSVLine`
scanner are the corresponding char-list programs. -/

/-- `Array.join(sep)` for one-character separators. -/
def joinChar (sep : Char) : List (List Char) → List Char
  | [] => []
  | [x] => x
  | x :: y :: ys => x ++ sep :: joinChar sep (y :: ys)

/-- `String.split(sep)` for one-character separators. -/
def splitChar (sep : Char) : List Char → List (List Char)
  | [] => [[]]
  | c :: rest =>
      if c = sep then [] :: splitChar sep rest
      else
        match splitChar sep rest with
        | [] => [[c]]
        | h :: t => (c :: h) :: t

/-- The whitespace set of `String.trim()` (the characters occurring in this
development). -/
def isWS (c : Char) : Bool := c = ' ' || c = '\t' || c = '\n' || c = '\r'

/-- `String.trim()`. -/
def trimChars (l : List Char) : List Char :=
  ((l.dropWhile isWS).reverse.dropWhile isWS).reverse

/-- The state machine of `parseCSVLine`: remaining input, `inQuotes`, and
the accumulated current field. -/
def parseAux : List Char → Bool → List Char → List (List Char)
  | [], _, cur => [trimChars cur]
  | ch :: rest, inQ, cur =>
      if ch = '"' then parseAux rest (!inQ) cur
      else if ch = ',' ∧ inQ = false then trimChars cur :: parseAux rest inQ []
      else parseAux rest inQ (cur ++ [ch])

/-- `parseCSVLine(line)`. -/
def parseCSVLine (l : List Char) : List (List Char) := parseAux l false []

theorem splitChar_ne_nil (sep : Char) : ∀ l : List Char, splitChar sep l ≠ [] := by
  intro l
  induction l with
  | nil => simp [splitChar]
  | cons c rest ih =>
      simp only [splitChar]
      by_cases h : c = sep
      · simp [h]
      · simp only [h, if_false]
        cases splitChar sep rest with
        | nil => simp
        | cons h t => simp

theorem splitChar_no_sep (sep : Char) :
    ∀ l : List Char, sep ∉ l → splitChar sep l = [l] := by
  intro l
  induction l with
  | nil => intro _; rfl
  | cons c rest ih =>
      intro h
      have hc : ¬ c = sep := fun hc => h (hc ▸ List.mem_cons_self c rest)
      have hr : sep ∉ rest := fun hr => h (List.mem_cons_of_mem c hr)
      simp only [splitChar, hc, if_false]
      rw [ih hr]

theorem splitChar_append_sep (sep : Char) :
    ∀ (a rest : List Char), sep ∉ a →
      splitChar sep (a ++ sep :: rest) = a :: splitChar sep rest := by
  intro a
  induction a with
  | nil =>
      intro rest _
      simp [splitChar]
  | cons c a' ih =>
      intro rest h
      have hc : ¬ c = sep := fun hc => h (hc ▸ List.mem_cons_self c a')
      have ha : sep ∉ a' := fun ha => h (List.mem_cons_of_mem c ha)
      simp only [List.cons_append, splitChar, hc, if_false, List.append_eq]
      rw [ih rest ha]

theorem splitChar_joinChar (sep : Char) :
    ∀ L : List (List Char), (∀ l ∈ L, sep ∉ l) → L ≠ [] →
      splitChar sep (joinChar sep L) = L := by
  intro L
  induction L with
  | nil => intro _ h; exact absurd rfl h
  | cons x ys ih =>
      intro h _
      cases ys with
      | nil =>
          show splitChar sep x = [x]
          exact splitChar_no_sep sep x (h x (List.mem_cons_self x []))
      | cons y ys' =>
          show splitChar sep (x ++ sep :: joinChar sep (y :: ys')) = _
          rw [splitChar_append_sep sep x _ (h x (List.mem_cons_self _ _))]
          rw [ih (fun l hl => h l (List.mem_cons_of_mem x hl)) (by simp)]

theorem dropWhile_isWS_eq_self (l : List Char)
    (h : ∀ a, l.head? = some a → isWS a = false) : l.dropWhile isWS = l := by
  cases l with
  | nil => rfl
  | cons c rest =>
      rw [List.dropWhile_cons_of_neg]
      simp [h c rfl]

/-- `trim` is the identity on a string whose two ends are not whitespace. -/
theorem trimChars_eq_self (l : List Char)
    (h1 : ∀ a, l.head? = some a → isWS a = false)
    (h2 : ∀ a, l.getLast? = some a → isWS a = false) : trimChars l = l := by
  unfold trimChars
  rw [dropWhile_isWS_eq_self l h1]
  rw [dropWhile_isWS_eq_self l.reverse (by
    intro a ha
    rw [List.head?_reverse] at ha
    exact h2 a ha)]
  exact List.reverse_reverse l

theorem parseAux_chunk :
    ∀ (f : List Char) (inQ : Bool) (cur rest : List Char),
      (∀ c ∈ f, c ≠ '"' ∧ (inQ = true ∨ c ≠ ',')) →
      parseAux (f ++ rest) inQ cur = parseAux rest inQ (cur ++ f) := by
  intro f
  induction f with
  | nil => intro inQ cur rest _; simp
  | cons c f' ih =>
      intro inQ cur rest h
      obtain ⟨hq, hc⟩ := h c (List.mem_cons_self c f')
      have hstep : parseAux (c :: (f' ++ rest)) inQ cur = parseAux (f' ++ rest) inQ (cur ++ [c]) := by
        simp only [parseAux, hq, if_false]
        rcases hc with hc | hc
        · subst hc
          simp
        · simp [hc]
      simp only [List.cons_append, hstep]
      rw [ih inQ (cur ++ [c]) rest (fun d hd => h d (List.mem_cons_of_mem c hd))]
      simp

theorem parseAux_quote (rest : List Char) (inQ : Bool) (cur : List Char) :
    parseAux ('"' :: rest) inQ cur = parseAux rest (!inQ) cur := by
  simp [parseAux]

theorem parseAux_comma (rest : List Char) (cur : List Char) :
    parseAux (',' :: rest) false cur = trimChars cur :: parseAux rest false [] := by
  simp [parseAux]

/-- A CSV cell as the export builds it: either a bare string or a
quote-wrapped one. -/
structure Cell where
  quoted : Bool
  content : List Char
deriving DecidableEq

/-- The text the export writes for one cell. -/
def renderCell (c : Cell) : List Char :=
  if c.quoted then '"' :: (c.content ++ ['"']) else c.content

/-- Cell contents that survive the scanner unchanged: no quote, comma or
newline characters, and no whitespace at either end. -/
def SafeCell (c : Cell) : Prop :=
  (∀ ch ∈ c.content, ch ≠ '"' ∧ ch ≠ ',' ∧ ch ≠ '\n') ∧ trimChars c.content = c.content

theorem parseAux_cell (c : Cell) (h : SafeCell c) (rest : List Char) :
    parseAux (renderCell c ++ rest) false [] = parseAux rest false c.content := by
  obtain ⟨hch, _⟩ := h
  cases hq : c.quoted with
  | false =>
      rw [show renderCell c = c.content by simp [renderCell, hq]]
      rw [parseAux_chunk c.content false [] rest
        (by intro d hd; exact ⟨(hch d hd).1, Or.inr (hch d hd).2.1⟩)]
      simp
  | true =>
      rw [show renderCell c = '"' :: (c.content ++ ['"']) by simp [renderCell, hq]]
      rw [List.cons_append, parseAux_quote]
      rw [List.append_assoc]
      show parseAux (c.content ++ ('"' :: rest)) true [] = _
      rw [parseAux_chunk c.content true [] ('"' :: rest)
        (by intro d hd; exact ⟨(hch d hd).1, Or.inl rfl⟩)]
      rw [parseAux_quote]
      simp

/-- Parsing a rendered row of safe cells recovers exactly the cell
contents. -/
theorem parseCSVLine_cells :
    ∀ cells : List Cell, cells ≠ [] → (∀ c ∈ cells, SafeCell c) →
      parseCSVLine (joinChar ',' (cells.map renderCell)) =
        cells.map (fun c => c.content) := by
  intro cells
  induction cells with
  | nil => intro h _; exact absurd rfl h
  | cons c rest ih =>
      intro _ h
      cases rest with
      | nil =>
          show parseAux (renderCell c) false [] = [c.content]
          have := parseAux_cell c (h c (List.mem_cons_self c [])) []
          rw [List.append_nil] at this
          rw [this]
          show [trimChars c.content] = [c.content]
          rw [(h c (List.mem_cons_self c [])).2]
      | cons d rest' =>
          show parseAux (renderCell c ++ ',' :: joinChar ',' ((d :: rest').map renderCell))
              false [] = _
          rw [parseAux_cell c (h c (List.mem_cons_self c _))]
          rw [parseAux_comma]
          rw [(h c (List.mem_cons_self c _)).2]
          show c.content :: parseCSVLine (joinChar ',' ((d :: rest').map renderCell)) = _
          rw [ih (by simp) (fun e he => h e (List.mem_cons_of_mem c he))]
          rfl

/-- The decimal digit character for `d < 10` (`'9'` past the range). -/
def digitChar (d : Nat) : Char :=
  match d with
  | 0 => '0' | 1 => '1' | 2 => '2' | 3 => '3' | 4 => '4'
  | 5 => '5' | 6 => '6' | 7 => '7' | 8 => '8' | _ => '9'

/-- Digit printer for naturals, with a structural fuel (`n + 1` digits always
suffice). -/
def natToCharsAux : Nat → Nat → List Char
  | 0, _ => []
  | fuel + 1, n =>
      if n < 10 then [digitChar n]
      else natToCharsAux fuel (n / 10) ++ [digitChar (n % 10)]

/-- Decimal digits of a natural number. -/
def natToChars (n : Nat) : List Char := natToCharsAux (n + 1) n

/-- A whole non-negative rational (the hypothesis under which JS printing is
modelled). -/
def WholeQ (q : ℚ) : Prop := 0 ≤ q.num ∧ q.den = 1

instance (q : ℚ) : Decidable (WholeQ q) := by unfold WholeQ; infer_instance

/-- JS number stringification, modelled for the whole non-negative values the
round-trip hypotheses admit (no fraction, no sign); other values print a
placeholder never exercised under those hypotheses. -/
def qToChars (q : ℚ) : List Char :=
  if WholeQ q then natToChars q.num.toNat else ['?']

/-- `parseFloat(x) || 0`, modelled for unsigned integral prefixes: the value
of the leading digit run, `0` when there is none (`NaN || 0`). -/
def parseFloatQ (l : List Char) : ℚ :=
  ((digitsVal (l.takeWhile (fun c => c.isDigit)) : Nat) : ℚ)

theorem digit_char_props (d : Nat) (hd : d < 10) :
    (digitChar d).isDigit = true ∧ digitChar d ≠ '"' ∧
    digitChar d ≠ ',' ∧ digitChar d ≠ '\n' ∧
    isWS (digitChar d) = false := by
  interval_cases d <;> exact ⟨by decide, by decide, by decide, by decide, by decide⟩

theorem toNat_digitChar (d : Nat) (hd : d < 10) : (digitChar d).toNat = 48 + d := by
  interval_cases d <;> decide

theorem natToCharsAux_mem (fuel : Nat) :
    ∀ n c, c ∈ natToCharsAux fuel n → ∃ d, d < 10 ∧ c = digitChar d := by
  induction fuel with
  | zero => intro n c hc; cases hc
  | succ fuel ih =>
      intro n c hc
      by_cases h : n < 10
      · simp only [natToCharsAux, h, if_pos] at hc
        simp at hc
        exact ⟨n, h, hc⟩
      · simp only [natToCharsAux, h, if_false] at hc
        rcases List.mem_append.mp hc with hc | hc
        · exact ih _ _ hc
        · simp at hc
          exact ⟨n % 10, Nat.mod_lt _ (by omega), hc⟩

theorem natToCharsAux_ne_nil (fuel n : Nat) (h : n < fuel) :
    natToCharsAux fuel n ≠ [] := by
  cases fuel with
  | zero => omega
  | succ fuel =>
      by_cases h10 : n < 10
      · simp [natToCharsAux, h10]
      · simp [natToCharsAux, h10]

theorem digitsValAux_append (c : Char) :
    ∀ (l : List Char) (acc : Nat),
      digitsValAux acc (l ++ [c]) = (digitsValAux acc l) * 10 + (c.toNat - 48) := by
  intro l
  induction l with
  | nil =>
      intro acc
      show digitsValAux (acc * 10 + (c.toNat - 48)) [] = acc * 10 + (c.toNat - 48)
      rfl
  | cons d l' ih =>
      intro acc
      show digitsValAux (acc * 10 + (d.toNat - 48)) (l' ++ [c]) = _
      exact ih _

theorem digitsValAux_natToCharsAux :
    ∀ (fuel n : Nat), n < fuel → digitsValAux 0 (natToCharsAux fuel n) = n := by
  intro fuel
  induction fuel with
  | zero => intro n h; omega
  | succ fuel ih =>
      intro n h
      by_cases h10 : n < 10
      · simp only [natToCharsAux, h10, if_pos]
        show digitsValAux (0 * 10 + ((digitChar n).toNat - 48)) [] = n
        rw [toNat_digitChar n h10]
        show 0 * 10 + (48 + n - 48) = n
        omega
      · simp only [natToCharsAux, h10, if_false]
        rw [digitsValAux_append]
        rw [ih (n / 10) (by omega)]
        rw [toNat_digitChar (n % 10) (Nat.mod_lt _ (by omega))]
        omega

theorem takeWhile_all (p : Char → Bool) :
    ∀ l : List Char, (∀ c ∈ l, p c = true) → l.takeWhile p = l := by
  intro l
  induction l with
  | nil => intro _; rfl
  | cons c rest ih =>
      intro h
      rw [List.takeWhile_cons_of_pos (h c (List.mem_cons_self c rest))]
      rw [ih (fun d hd => h d (List.mem_cons_of_mem c hd))]

/-- Printing then parsing a natural number is the identity. -/
theorem parseFloatQ_natToChars (n : Nat) : parseFloatQ (natToChars n) = (n : ℚ) := by
  unfold parseFloatQ natToChars
  rw [takeWhile_all _ _ (by
    intro c hc
    obtain ⟨d, hd, rfl⟩ := natToCharsAux_mem _ _ _ hc
    exact (digit_char_props d hd).1)]
  rw [show digitsVal (natToCharsAux (n + 1) n) = n from
    digitsValAux_natToCharsAux (n + 1) n (by omega)]

theorem parseFloatQ_qToChars (q : ℚ) (h : WholeQ q) : parseFloatQ (qToChars q) = q := by
  unfold qToChars
  rw [if_pos h]
  rw [parseFloatQ_natToChars]
  obtain ⟨h1, h2⟩ := h
  have hq : ((q.num : ℚ)) = q := by
    have := Rat.num_div_den q
    rw [h2] at this
    simpa using this
  rw [← hq]
  exact_mod_cast congrArg (fun z : ℤ => (z : ℚ)) (Int.toNat_of_nonneg h1)

/-- The digits of a whole non-negative rational form a safe bare cell. -/
theorem qToChars_safeCell (q : ℚ) (h : WholeQ q) : SafeCell ⟨false, qToChars q⟩ := by
  have hmem : ∀ c ∈ qToChars q, ∃ d, d < 10 ∧ c = digitChar d := by
    intro c hc
    unfold qToChars at hc
    rw [if_pos h] at hc
    exact natToCharsAux_mem _ _ _ hc
  constructor
  · intro ch hch
    obtain ⟨d, hd, rfl⟩ := hmem ch hch
    exact ⟨(digit_char_props d hd).2.1, (digit_char_props d hd).2.2.1,
      (digit_char_props d hd).2.2.2.1⟩
  · show trimChars (qToChars q) = qToChars q
    apply trimChars_eq_self
    · intro a ha
      obtain ⟨d, hd, rfl⟩ := hmem a (List.mem_of_mem_head? ha)
      exact (digit_char_props d hd).2.2.2.2
    · intro a ha
      obtain ⟨d, hd, rfl⟩ := hmem a (List.mem_of_mem_getLast? ha)
      exact (digit_char_props d hd).2.2.2.2

theorem mkStr_data (s : String) : String.mk s.data = s := by cases s; rfl

/-- The first character, if any, is not whitespace. -/
def headOK (l : List Char) : Bool :=
  match l.head? with
  | none => true
  | some a => !isWS a

/-- The last character, if any, is not whitespace. -/
def lastOK (l : List Char) : Bool :=
  match l.getLast? with
  | none => true
  | some a => !isWS a

theorem headOK_spec {l : List Char} (h : headOK l = true) :
    ∀ a, l.head? = some a → isWS a = false := by
  intro a ha
  unfold headOK at h
  rw [ha] at h
  simpa using h

theorem lastOK_spec {l : List Char} (h : lastOK l = true) :
    ∀ a, l.getLast? = some a → isWS a = false := by
  intro a ha
  unfold lastOK at h
  rw [ha] at h
  simpa using h

/-- A string that the CSV layer transports verbatim: nonempty, free of
quote/comma/newline characters, and with non-whitespace ends. -/
def SafeStr (s : String) : Prop :=
  s.data ≠ [] ∧ (∀ ch ∈ s.data, ch ≠ '"' ∧ ch ≠ ',' ∧ ch ≠ '\n') ∧
  headOK s.data = true ∧ lastOK s.data = true

instance (s : String) : Decidable (SafeStr s) := by unfold SafeStr; infer_instance

/-- An optional string whose value, when present, is safe. -/
def SafeOpt : Option String → Prop
  | none => True
  | some s => SafeStr s

instance : (o : Option String) → Decidable (SafeOpt o)
  | none => isTrue trivial
  | some s => inferInstanceAs (Decidable (SafeStr s))

theorem safeStr_trim {s : String} (h : SafeStr s) : trimChars s.data = s.data :=
  trimChars_eq_self _ (headOK_spec h.2.2.1) (lastOK_spec h.2.2.2)

/-- A quote-wrapped cell holding string `s`. -/
def quotedStr (s : String) : Cell := ⟨true, s.data⟩

/-- A bare cell holding string `s`. -/
def bareStr (s : String) : Cell := ⟨false, s.data⟩

theorem safeCell_quoted {s : String} (h : SafeStr s) : SafeCell (quotedStr s) :=
  ⟨h.2.1, safeStr_trim h⟩

theorem safeCell_empty : SafeCell (quotedStr "") := by
  constructor
  · intro ch hch; cases hch
  · rfl

/-- `${x || ''}`. -/
def orEmpty (o : Option String) : String := o.getD ""

theorem safeCell_orEmpty {o : Option String} (h : SafeOpt o) :
    SafeCell (quotedStr (orEmpty o)) := by
  cases o with
  | none => exact safeCell_empty
  | some s => exact safeCell_quoted h

/-- `${x}` for an optional string: JS renders a missing value as the literal
text `undefined`. -/
def strOfOptJS (o : Option String) : String :=
  match o with
  | some s => s
  | none => "undefined"

/-- The 18 cells of one row of `exportClientsCSV`, in header order. -/
def clientCells (c : Client) : List Cell :=
  [ bareStr "Cliente",
    quotedStr c.name,
    ⟨true, c.address.streetType.data ++ ' ' :: c.address.street.data⟩,
    bareStr (if c.type = ClientType.pj then "J" else "F"),
    quotedStr c.phone,
    quotedStr c.mobile,
    quotedStr c.address.zipCode,
    quotedStr c.address.city,
    quotedStr c.email,
    quotedStr (strOfOptJS (if c.type = ClientType.pj then c.cnpj else c.cpf)),
    quotedStr (orEmpty c.inscricao_estadual),
    quotedStr c.address.neighborhood,
    quotedStr (orEmpty c.complemento),
    quotedStr (orEmpty c.numero),
    bareStr (if c.isento_icms = some true then "true" else "false"),
    quotedStr (orEmpty c.razao_social),
    quotedStr (orEmpty c.id_empresa),
    bareStr (if c.fl_ativo then "true" else "false") ]

/-- One data row of `exportClientsCSV`. -/
def clientRow (c : Client) : List Char :=
  joinChar ',' ((clientCells c).map renderCell)

/-- The header line of `exportClientsCSV`. -/
def clientHeader : List Char :=
  "tipo,nome,endereco,tipopessoa,fone_comercial,fone_celular,cep,cidade,email,cpf_cnpj,inscricao_estadual,bairro,complemento,numero,isento_icms,razao_social,id_empresa,fl_ativo".data

/-- `exportClientsCSV()`: header plus one row per client, joined by
newlines (the produced text blob; the download wrapper is I/O). -/
def exportClientsCSV (s : AppState) : List Char :=
  joinChar '\n' (clientHeader :: s.clients.map clientRow)

/-- `values[i]` (missing positions read as the empty string, the way
the import's `|| ''` / strict comparisons treat `undefined` in every
use below). -/
def getVal (values : List (List Char)) (i : Nat) : String :=
  String.mk (values.getD i [])

/-- `x || undefined` for a string field. -/
def optStr (s : String) : Option String := if s = "" then none else some s

/-- The client record `importClientsCSV` builds from one parsed row. -/
def buildClient (values : List (List Char)) : Client :=
  let v := getVal values
  { id := ""
    name := v 1
    type := if v 3 = "J" then ClientType.pj else ClientType.pf
    cpf := if v 3 = "F" then some (v 9) else none
    cnpj := if v 3 = "J" then some (v 9) else none
    email := v 8
    phone := v 4
    mobile := v 5
    razao_social := optStr (v 15)
    inscricao_estadual := optStr (v 10)
    isento_icms := some (v 14 == "true")
    numero := optStr (v 13)
    complemento := optStr (v 12)
    id_empresa := optStr (v 16)
    fl_ativo := !(v 17 == "false")
    address := { country := "Brasil", state := "", city := v 7, zipCode := v 6,
                 neighborhood := v 11, streetType := "Rua", street := v 2 }
    created_at := ""
    total_projects := some 0
    total_value := some 0 }

/-- `importClientsCSV(file)`: split into lines, skip the header, and feed
every parsed row of at least 10 fields through `addClient`. -/
def importClientsCSV (s : AppState) (content : List Char) : AppState :=
  match splitChar '\n' content with
  | [] => s
  | _ :: rows =>
      rows.foldl (fun st row =>
        let line := trimChars row
        if line = [] then st
        else
          let values := parseCSVLine line
          if values.length < 10 then st
          else addClient st (buildClient values)) s

theorem mem_joinChar (sep : Char) :
    ∀ (L : List (List Char)) (c : Char), c ∈ joinChar sep L →
      c = sep ∨ ∃ l ∈ L, c ∈ l := by
  intro L
  induction L with
  | nil => intro c hc; cases hc
  | cons x ys ih =>
      intro c hc
      cases ys with
      | nil => exact Or.inr ⟨x, List.mem_cons_self x [], hc⟩
      | cons y ys' =>
          rcases List.mem_append.mp hc with hc | hc
          · exact Or.inr ⟨x, List.mem_cons_self x _, hc⟩
          · rcases List.mem_cons.mp hc with rfl | hc
            · exact Or.inl rfl
            · rcases ih c hc with h | ⟨l, hl, hcl⟩
              · exact Or.inl h
              · exact Or.inr ⟨l, List.mem_cons_of_mem x hl, hcl⟩

theorem mem_renderCell (cell : Cell) (c : Char) (hc : c ∈ renderCell cell) :
    c = '"' ∨ c ∈ cell.content := by
  unfold renderCell at hc
  by_cases hq : cell.quoted
  · rw [if_pos hq] at hc
    rcases List.mem_cons.mp hc with rfl | hc
    · exact Or.inl rfl
    · rcases List.mem_append.mp hc with hc | hc
      · exact Or.inr hc
      · simp at hc
        exact Or.inl hc
  · rw [if_neg hq] at hc
    exact Or.inr hc

/-- No newline occurs in a row rendered from newline-free cells. -/
theorem row_no_newline (cells : List Cell) (h : ∀ cell ∈ cells, SafeCell cell) :
    '\n' ∉ joinChar ',' (cells.map renderCell) := by
  intro hmem
  rcases mem_joinChar ',' _ _ hmem with hc | ⟨l, hl, hcl⟩
  · cases hc
  · rcases List.mem_map.mp hl with ⟨cell, hcell, rfl⟩
    rcases mem_renderCell cell _ hcl with hc | hc
    · cases hc
    · exact ((h cell hcell).1 _ hc).2.2 rfl

theorem joinChar_head? (sep : Char) (x : List Char) (L : List (List Char)) (hx : x ≠ []) :
    (joinChar sep (x :: L)).head? = x.head? := by
  cases L with
  | nil => rfl
  | cons y ys =>
      show (x ++ sep :: joinChar sep (y :: ys)).head? = x.head?
      exact List.head?_append_of_ne_nil x hx

theorem joinChar_snoc (sep : Char) :
    ∀ (L : List (List Char)) (x : List Char), L ≠ [] →
      joinChar sep (L ++ [x]) = joinChar sep L ++ sep :: x := by
  intro L
  induction L with
  | nil => intro x h; exact absurd rfl h
  | cons y ys ih =>
      intro x _
      cases ys with
      | nil => rfl
      | cons z zs =>
          show y ++ sep :: joinChar sep ((z :: zs) ++ [x]) = (y ++ sep :: joinChar sep (z :: zs)) ++ sep :: x
          rw [ih x (by simp)]
          simp

theorem joinChar_getLast? (sep : Char) (L : List (List Char)) (x : List Char) (hx : x ≠ []) :
    (joinChar sep (L ++ [x])).getLast? = x.getLast? := by
  cases L with
  | nil => rfl
  | cons y ys =>
      have h1 : (joinChar sep (y :: ys) ++ sep :: x).getLast? = (sep :: x).getLast? :=
        List.getLast?_append_of_ne_nil _ (by simp)
      have h2 : (sep :: x).getLast? = x.getLast? := by
        show (([sep] : List Char) ++ x).getLast? = x.getLast?
        exact List.getLast?_append_of_ne_nil _ hx
      rw [joinChar_snoc sep (y :: ys) x (by simp), h1, h2]

theorem safeStr_ne_empty {s : String} (h : SafeStr s) : s ≠ "" := by
  intro he
  exact h.1 (by rw [he])

theorem optStr_orEmpty {o : Option String} (h : SafeOpt o) : optStr (orEmpty o) = o := by
  cases o with
  | none => simp [optStr, orEmpty]
  | some s => simp [optStr, orEmpty, safeStr_ne_empty h]

theorem mk_append_space (a b : String) : String.mk (a.data ++ ' ' :: b.data) = a ++ " " ++ b := by
  cases a with
  | mk l =>
      cases b with
      | mk m =>
          show String.mk (l ++ ' ' :: m) = String.mk ((l ++ [' ']) ++ m)
          rw [List.append_assoc]
          rfl

theorem endereco_safeCell {a b : String} (ha : SafeStr a) (hb : SafeStr b) :
    SafeCell ⟨true, a.data ++ ' ' :: b.data⟩ := by
  constructor
  · intro ch hch
    rcases List.mem_append.mp hch with hch | hch
    · exact ha.2.1 ch hch
    · rcases List.mem_cons.mp hch with rfl | hch
      · exact ⟨by decide, by decide, by decide⟩
      · exact hb.2.1 ch hch
  · apply trimChars_eq_self
    · intro x hx
      rw [List.head?_append_of_ne_nil _ ha.1] at hx
      exact headOK_spec ha.2.2.1 x hx
    · intro x hx
      rw [List.getLast?_append_of_ne_nil _ (by simp)] at hx
      have h2 : (' ' :: b.data).getLast? = b.data.getLast? := by
        show (([' '] : List Char) ++ b.data).getLast? = b.data.getLast?
        exact List.getLast?_append_of_ne_nil _ hb.1
      rw [h2] at hx
      exact lastOK_spec hb.2.2.2 x hx

/-- A client whose textual fields the CSV layer transports verbatim, whose
tax identifier matches its person type, and whose ICMS flag is present. -/
def ClientSafe (c : Client) : Prop :=
  SafeStr c.name ∧ SafeStr c.phone ∧ SafeStr c.mobile ∧ SafeStr c.email ∧
  SafeStr c.address.zipCode ∧ SafeStr c.address.city ∧ SafeStr c.address.neighborhood ∧
  SafeStr c.address.streetType ∧ SafeStr c.address.street ∧
  SafeOpt c.inscricao_estadual ∧ SafeOpt c.complemento ∧ SafeOpt c.numero ∧
  SafeOpt c.razao_social ∧ SafeOpt c.id_empresa ∧
  c.isento_icms ≠ none ∧
  (c.type = ClientType.pf → c.cnpj = none ∧ c.cpf ≠ none ∧ SafeOpt c.cpf) ∧
  (c.type = ClientType.pj → c.cpf = none ∧ c.cnpj ≠ none ∧ SafeOpt c.cnpj)

instance (c : Client) : Decidable (ClientSafe c) := by unfold ClientSafe; infer_instance

instance (cell : Cell) : Decidable (SafeCell cell) := by unfold SafeCell; infer_instance

theorem clientCells_safe (c : Client) (h : ClientSafe c) :
    ∀ cell ∈ clientCells c, SafeCell cell := by
  obtain ⟨hname, hphone, hmobile, hemail, hzip, hcity, hneigh, hstT, hst, hinsc, hcompl,
    hnum, hraz, hemp, hisento, hpf, hpj⟩ := h
  intro cell hcell
  simp only [clientCells, List.mem_cons, List.not_mem_nil, or_false] at hcell
  rcases hcell with rfl | rfl | rfl | rfl | rfl | rfl | rfl | rfl | rfl | rfl | rfl | rfl |
    rfl | rfl | rfl | rfl | rfl | rfl
  · decide
  · exact safeCell_quoted hname
  · exact endereco_safeCell hstT hst
  · by_cases ht : c.type = ClientType.pj
    · rw [if_pos ht]; decide
    · rw [if_neg ht]; decide
  · exact safeCell_quoted hphone
  · exact safeCell_quoted hmobile
  · exact safeCell_quoted hzip
  · exact safeCell_quoted hcity
  · exact safeCell_quoted hemail
  · cases htype : c.type with
    | pj =>
        obtain ⟨-, hne, hsafe⟩ := hpj htype
        cases hcn : c.cnpj with
        | none => exact absurd hcn hne
        | some sc =>
            rw [if_pos rfl]
            rw [hcn] at hsafe
            exact safeCell_quoted hsafe
    | pf =>
        obtain ⟨-, hne, hsafe⟩ := hpf htype
        cases hcp : c.cpf with
        | none => exact absurd hcp hne
        | some sc =>
            rw [if_neg (by decide : ¬ ClientType.pf = ClientType.pj)]
            rw [hcp] at hsafe
            exact safeCell_quoted hsafe
  · exact safeCell_orEmpty hinsc
  · exact safeCell_quoted hneigh
  · exact safeCell_orEmpty hcompl
  · exact safeCell_orEmpty hnum
  · by_cases hb : c.isento_icms = some true
    · rw [if_pos hb]; decide
    · rw [if_neg hb]; decide
  · exact safeCell_orEmpty hraz
  · exact safeCell_orEmpty hemp
  · by_cases hb : c.fl_ativo
    · simp only [hb, if_true]; decide
    · simp only [hb]; decide

/-- What re-importing an exported client produces, up to the fresh
id/timestamp: all mapped fields verbatim, but the address collapses —
`street` becomes `streetType ++ " " ++ street`, `streetType` resets to
`"Rua"`, `state` empties, `country` resets — and the rollups reset to 0. -/
def reimportedClient (c : Client) : Client :=
  { c with
    id := ""
    created_at := ""
    address := { country := "Brasil", state := "", city := c.address.city,
                 zipCode := c.address.zipCode, neighborhood := c.address.neighborhood,
                 streetType := "Rua",
                 street := c.address.streetType ++ " " ++ c.address.street }
    total_projects := some 0
    total_value := some 0 }

theorem buildClient_cells (c : Client) (h : ClientSafe c) :
    buildClient ((clientCells c).map (fun cl => cl.content)) = reimportedClient c := by
  obtain ⟨hname, hphone, hmobile, hemail, hzip, hcity, hneigh, hstT, hst, hinsc, hcompl,
    hnum, hraz, hemp, hisento, hpf, hpj⟩ := h
  cases htype : c.type with
  | pf =>
      obtain ⟨hcn, hcpne, hcps⟩ := hpf htype
      cases hcp : c.cpf with
      | none => exact absurd hcp hcpne
      | some sc =>
          cases hisen : c.isento_icms with
          | none => exact absurd hisen hisento
          | some b =>
              cases b <;> by_cases hfl : c.fl_ativo <;>
                simp [buildClient, reimportedClient, clientCells, getVal, htype, hcp, hcn,
                  hisen, mkStr_data, quotedStr, bareStr, strOfOptJS, hfl,
                  optStr_orEmpty hinsc, optStr_orEmpty hcompl, optStr_orEmpty hnum,
                  optStr_orEmpty hraz, optStr_orEmpty hemp, mk_append_space]
  | pj =>
      obtain ⟨hcp, hcnne, hcns⟩ := hpj htype
      cases hcn : c.cnpj with
      | none => exact absurd hcn hcnne
      | some sc =>
          cases hisen : c.isento_icms with
          | none => exact absurd hisen hisento
          | some b =>
              cases b <;> by_cases hfl : c.fl_ativo <;>
                simp [buildClient, reimportedClient, clientCells, getVal, htype, hcp, hcn,
                  hisen, mkStr_data, quotedStr, bareStr, strOfOptJS, hfl,
                  optStr_orEmpty hinsc, optStr_orEmpty hcompl, optStr_orEmpty hnum,
                  optStr_orEmpty hraz, optStr_orEmpty hemp, mk_append_space]

theorem clientRow_head? (c : Client) : (clientRow c).head? = some 'C' := by
  unfold clientRow
  rw [show (clientCells c).map renderCell =
      "Cliente".data :: ((clientCells c).tail.map renderCell) by simp [clientCells, renderCell, bareStr]]
  rw [joinChar_head? ',' _ _ (by decide)]
  rfl

theorem clientRow_getLast? (c : Client) :
    (clientRow c).getLast? = some 'e' := by
  unfold clientRow
  rw [show (clientCells c).map renderCell =
      ((clientCells c).dropLast.map renderCell) ++
        [renderCell (bareStr (if c.fl_ativo then "true" else "false"))] by
    simp [clientCells]]
  rw [joinChar_getLast? ',' _ _ (by
    by_cases hfl : c.fl_ativo <;> simp [renderCell, bareStr, hfl])]
  by_cases hfl : c.fl_ativo <;> simp [renderCell, bareStr, hfl]

theorem clientRow_trim (c : Client) : trimChars (clientRow c) = clientRow c := by
  apply trimChars_eq_self
  · intro a ha
    rw [clientRow_head?] at ha
    cases ha
    decide
  · intro a ha
    rw [clientRow_getLast?] at ha
    cases ha
    decide

theorem clientRow_ne_nil (c : Client) : clientRow c ≠ [] := by
  intro h
  have := clientRow_head? c
  rw [h] at this
  cases this

theorem clientRow_newline_free (c : Client) (h : ClientSafe c) : '\n' ∉ clientRow c :=
  row_no_newline _ (clientCells_safe c h)

theorem parseCSVLine_clientRow (c : Client) (h : ClientSafe c) :
    parseCSVLine (clientRow c) = (clientCells c).map (fun cl => cl.content) :=
  parseCSVLine_cells _ (by simp [clientCells]) (clientCells_safe c h)

/-- Erases the generated identity fields of a client. -/
def clientKey (c : Client) : Client := { c with id := "", created_at := "" }

theorem clientKey_addClient (st : AppState) (c : Client) :
    (addClient st c).clients.map clientKey = clientKey c :: st.clients.map clientKey := by
  simp [addClient, clientKey]

/-- The zeta-normal form of the per-row body of `importClientsCSV`. -/
def importClientStep (st : AppState) (row : List Char) : AppState :=
  if trimChars row = [] then st
  else if (parseCSVLine (trimChars row)).length < 10 then st
  else addClient st (buildClient (parseCSVLine (trimChars row)))

theorem clientKey_reimported (c : Client) :
    clientKey (reimportedClient c) = reimportedClient c := rfl

/-- Processing the exported rows left to right prepends the re-imported
records one by one. -/
theorem importClients_fold :
    ∀ (cs : List Client) (st : AppState), (∀ c ∈ cs, ClientSafe c) →
      ((cs.map clientRow).foldl importClientStep st).clients.map clientKey =
      (cs.map reimportedClient).reverse ++ st.clients.map clientKey := by
  intro cs
  induction cs with
  | nil => intro st _; simp
  | cons c rest ih =>
      intro st h
      simp only [List.map_cons, List.foldl_cons]
      have hstep : importClientStep st (clientRow c) =
          addClient st (buildClient ((clientCells c).map (fun cl => cl.content))) := by
        unfold importClientStep
        rw [clientRow_trim c]
        rw [if_neg (clientRow_ne_nil c)]
        rw [parseCSVLine_clientRow c (h c (List.mem_cons_self c rest))]
        rw [if_neg (by simp [clientCells])]
      rw [hstep]
      rw [ih _ (fun d hd => h d (List.mem_cons_of_mem c hd))]
      rw [clientKey_addClient]
      rw [buildClient_cells c (h c (List.mem_cons_self c rest))]
      rw [clientKey_reimported]
      simp

/-- Export-then-import round trip for the client collection. -/
theorem clientsRoundTrip (s t : AppState) (h : ∀ c ∈ s.clients, ClientSafe c) :
    (importClientsCSV t (exportClientsCSV s)).clients.map clientKey =
      (s.clients.map reimportedClient).reverse ++ t.clients.map clientKey := by
  unfold importClientsCSV exportClientsCSV
  rw [splitChar_joinChar '\n' (clientHeader :: s.clients.map clientRow)
    (by
      intro l hl
      rcases List.mem_cons.mp hl with rfl | hl
      · decide
      · rcases List.mem_map.mp hl with ⟨c, hc, rfl⟩
        exact clientRow_newline_free c (h c hc))
    (by simp)]
  show ((s.clients.map clientRow).foldl importClientStep t).clients.map clientKey = _
  exact importClients_fold s.clients t h

/-! ### Products CSV -/

/-- The stored string of a product type. -/
def productTypeStr : ProductType → String
  | ProductType.material_bruto => "material_bruto"
  | ProductType.parte_produto => "parte_produto"
  | ProductType.produto_pronto => "produto_pronto"

/-- `(values[4] as any) || 'material_bruto'`, read back into the typed
field: the stored strings map to themselves, anything else (in particular
the empty string) falls back to `material_bruto`. -/
def parseProductType (s : String) : ProductType :=
  if s = "parte_produto" then ProductType.parte_produto
  else if s = "produto_pronto" then ProductType.produto_pronto
  else ProductType.material_bruto

/-- One `name:quantity` entry of the `componentes` column. -/
def componentEntryChars (c : ProductComponent) : List Char :=
  c.product_name.data ++ ':' :: qToChars c.quantity

/-- The `componentes` column: entries joined by `;`. -/
def componentsChars (cs : List ProductComponent) : List Char :=
  joinChar ';' (cs.map componentEntryChars)

/-- The 11 cells of one row of `exportProductsCSV`, in header order. -/
def productCells (p : Product) : List Cell :=
  [ quotedStr p.id,
    quotedStr p.name,
    quotedStr p.description,
    quotedStr p.category,
    quotedStr (productTypeStr p.type),
    quotedStr p.unit,
    ⟨false, qToChars p.cost_price⟩,
    ⟨false, qToChars (p.sale_price.getD 0)⟩,
    ⟨false, qToChars p.current_stock⟩,
    ⟨false, qToChars p.min_stock⟩,
    ⟨true, componentsChars p.components⟩ ]

/-- One data row of `exportProductsCSV`. -/
def productRow (p : Product) : List Char :=
  joinChar ',' ((productCells p).map renderCell)

/-- The header line of `exportProductsCSV`. -/
def productHeader : List Char :=
  "id,nome,descricao,categoria,tipo,unidade,custo,preco_venda,estoque_atual,estoque_minimo,componentes".data

/-- `exportProductsCSV()`. -/
def exportProductsCSV (s : AppState) : List Char :=
  joinChar '\n' (productHeader :: s.products.map productRow)

/-- The product record `importProductsCSV` builds from one parsed row:
note `componentes` is NOT read back — components are left empty. -/
def buildProduct (values : List (List Char)) : Product :=
  let v := getVal values
  let raw := fun i => values.getD i []
  { id := ""
    name := v 1
    description := v 2
    category := v 3
    type := parseProductType (v 4)
    unit := if v 5 = "" then "UN" else v 5
    components := []
    cost_price := parseFloatQ (raw 6)
    sale_price := if parseFloatQ (raw 7) = 0 then none else some (parseFloatQ (raw 7))
    current_stock := parseFloatQ (raw 8)
    min_stock := parseFloatQ (raw 9)
    supplier := none
    created_at := "" }

/-- The zeta-normal per-row body of `importProductsCSV`.  `snap` is the
`products` closure used by `addProduct`'s cycle check; a thrown error would
abort the JS import, but the built records carry no components, so
`addProduct` always succeeds and the fallback branch is unreachable. -/
def importProductStep (snap : List Product) (st : AppState) (row : List Char) : AppState :=
  if trimChars row = [] then st
  else if (parseCSVLine (trimChars row)).length < 10 then st
  else
    match addProductWith snap st (buildProduct (parseCSVLine (trimChars row))) with
    | some (Except.ok st') => st'
    | _ => st

/-- `importProductsCSV(file)`. -/
def importProductsCSV (s : AppState) (content : List Char) : AppState :=
  match splitChar '\n' content with
  | [] => s
  | _ :: rows => rows.foldl (importProductStep s.products) s

/-- A `sale_price` that survives the `parseFloat(x) || undefined` read-back:
absent, or a whole positive value (a stored `some 0` would come back as
`none`). -/
def SaleOK : Option ℚ → Prop
  | none => True
  | some q => WholeQ q ∧ q ≠ 0

instance : (o : Option ℚ) → Decidable (SaleOK o)
  | none => isTrue trivial
  | some q => inferInstanceAs (Decidable (WholeQ q ∧ q ≠ 0))

/-- A product whose mapped fields the CSV layer transports verbatim. -/
def ProductSafe (p : Product) : Prop :=
  SafeCell (quotedStr p.id) ∧ SafeCell (quotedStr p.name) ∧
  SafeCell (quotedStr p.description) ∧ SafeCell (quotedStr p.category) ∧
  SafeStr p.unit ∧ WholeQ p.cost_price ∧ WholeQ p.current_stock ∧ WholeQ p.min_stock ∧
  SaleOK p.sale_price ∧
  (∀ comp ∈ p.components, SafeStr comp.product_name ∧ WholeQ comp.quantity)

instance (p : Product) : Decidable (ProductSafe p) := by unfold ProductSafe; infer_instance

theorem qToChars_mem_digit {q : ℚ} (h : WholeQ q) :
    ∀ c ∈ qToChars q, ∃ d, d < 10 ∧ c = digitChar d := by
  intro c hc
  unfold qToChars at hc
  rw [if_pos h] at hc
  exact natToCharsAux_mem _ _ _ hc

theorem qToChars_ne_nil {q : ℚ} (h : WholeQ q) : qToChars q ≠ [] := by
  unfold qToChars
  rw [if_pos h]
  exact natToCharsAux_ne_nil _ _ (by omega)

theorem componentsChars_safeCell (cs : List ProductComponent)
    (h : ∀ comp ∈ cs, SafeStr comp.product_name ∧ WholeQ comp.quantity) :
    SafeCell ⟨true, componentsChars cs⟩ := by
  constructor
  · intro ch hch
    rcases mem_joinChar ';' _ _ hch with rfl | ⟨l, hl, hcl⟩
    · exact ⟨by decide, by decide, by decide⟩
    · rcases List.mem_map.mp hl with ⟨comp, hcomp, rfl⟩
      unfold componentEntryChars at hcl
      rcases List.mem_append.mp hcl with hcl | hcl
      · exact (h comp hcomp).1.2.1 ch hcl
      · rcases List.mem_cons.mp hcl with rfl | hcl
        · exact ⟨by decide, by decide, by decide⟩
        · obtain ⟨d, hd, rfl⟩ := qToChars_mem_digit (h comp hcomp).2 ch hcl
          exact ⟨(digit_char_props d hd).2.1, (digit_char_props d hd).2.2.1,
            (digit_char_props d hd).2.2.2.1⟩
  · show trimChars (componentsChars cs) = componentsChars cs
    cases hcs : cs with
    | nil => rfl
    | cons c0 cs' =>
        apply trimChars_eq_self
        · intro a ha
          unfold componentsChars at ha
          rw [List.map_cons] at ha
          rw [joinChar_head? ';' _ _ (by
            unfold componentEntryChars
            have := (h c0 (hcs ▸ List.mem_cons_self c0 cs')).1.1
            cases hdata : c0.product_name.data with
            | nil => exact absurd hdata this
            | cons x xs => simp [hdata])] at ha
          unfold componentEntryChars at ha
          rw [List.head?_append_of_ne_nil _ (h c0 (hcs ▸ List.mem_cons_self c0 cs')).1.1] at ha
          exact headOK_spec (h c0 (hcs ▸ List.mem_cons_self c0 cs')).1.2.2.1 a ha
        · intro a ha
          rcases List.eq_nil_or_concat (c0 :: cs') with heq | ⟨init, last, heq⟩
          · cases heq
          · have hlast : last ∈ cs := by rw [hcs, heq]; simp
            obtain ⟨hlname, hlq⟩ := h last hlast
            unfold componentsChars at ha
            rw [heq, List.concat_eq_append, List.map_append, List.map_singleton] at ha
            rw [joinChar_getLast? ';' _ _ (by
              unfold componentEntryChars
              cases hdata : last.product_name.data with
              | nil => exact absurd hdata hlname.1
              | cons x xs => simp [hdata])] at ha
            unfold componentEntryChars at ha
            rw [List.getLast?_append_of_ne_nil _ (by simp)] at ha
            have hc2 : (':' :: qToChars last.quantity).getLast? =
                (qToChars last.quantity).getLast? := by
              show (([':'] : List Char) ++ qToChars last.quantity).getLast? = _
              exact List.getLast?_append_of_ne_nil _ (qToChars_ne_nil hlq)
            rw [hc2] at ha
            obtain ⟨d, hd, rfl⟩ := qToChars_mem_digit hlq a (List.mem_of_mem_getLast? ha)
            exact (digit_char_props d hd).2.2.2.2

theorem productCells_safe (p : Product) (h : ProductSafe p) :
    ∀ cell ∈ productCells p, SafeCell cell := by
  obtain ⟨hid, hname, hdesc, hcat, hunit, hcost, hcur, hmin, hsale, hcomp⟩ := h
  intro cell hcell
  simp only [productCells, List.mem_cons, List.not_mem_nil, or_false] at hcell
  rcases hcell with rfl | rfl | rfl | rfl | rfl | rfl | rfl | rfl | rfl | rfl | rfl
  · exact hid
  · exact hname
  · exact hdesc
  · exact hcat
  · cases p.type <;> decide
  · exact safeCell_quoted hunit
  · exact qToChars_safeCell _ hcost
  · cases hsp : p.sale_price with
    | none => exact qToChars_safeCell _ (by decide)
    | some q =>
        rw [hsp] at hsale
        exact qToChars_safeCell _ hsale.1
  · exact qToChars_safeCell _ hcur
  · exact qToChars_safeCell _ hmin
  · exact componentsChars_safeCell _ hcomp

/-- Parsing the stored type string back recovers the type. -/
theorem parseProductType_str (ty : ProductType) :
    parseProductType (productTypeStr ty) = ty := by
  cases ty <;> decide

/-- What re-importing an exported product produces: all scalar mapped fields
verbatim, but the components list is dropped. -/
def reimportedProduct (p : Product) : Product :=
  { p with id := "", created_at := "", components := [], supplier := none }

theorem buildProduct_cells (p : Product) (h : ProductSafe p) :
    buildProduct ((productCells p).map (fun cl => cl.content)) = reimportedProduct p := by
  obtain ⟨hid, hname, hdesc, hcat, hunit, hcost, hcur, hmin, hsale, hcomp⟩ := h
  simp only [buildProduct, reimportedProduct, productCells, List.map_cons, List.map_nil,
    getVal, List.getD_cons_zero, List.getD_cons_succ, mkStr_data, quotedStr]
  rw [parseProductType_str]
  rw [if_neg (safeStr_ne_empty hunit)]
  rw [parseFloatQ_qToChars _ hcost, parseFloatQ_qToChars _ hcur, parseFloatQ_qToChars _ hmin]
  cases hsp : p.sale_price with
  | none =>
      simp only [Option.getD_none]
      rw [show parseFloatQ (qToChars 0) = 0 from parseFloatQ_qToChars 0 (by decide)]
      simp
  | some q =>
      rw [hsp] at hsale
      simp only [Option.getD_some]
      rw [parseFloatQ_qToChars q hsale.1]
      rw [if_neg hsale.2]

theorem renderQuoted_head? (l : List Char) :
    (renderCell ⟨true, l⟩).head? = some '"' := rfl

theorem renderQuoted_getLast? (l : List Char) :
    (renderCell ⟨true, l⟩).getLast? = some '"' := by
  show ('"' :: (l ++ ['"'])).getLast? = some '"'
  rw [show '"' :: (l ++ ['"']) = ('"' :: l) ++ ['"'] from rfl]
  exact List.getLast?_concat _

theorem productRow_head? (p : Product) : (productRow p).head? = some '"' := by
  unfold productRow productCells
  rw [List.map_cons]
  rw [joinChar_head? ',' _ _ (by simp [renderCell, quotedStr])]
  exact renderQuoted_head? _

theorem productRow_getLast? (p : Product) : (productRow p).getLast? = some '"' := by
  unfold productRow
  rw [show (productCells p).map renderCell =
      ((productCells p).dropLast.map renderCell) ++
        [renderCell ⟨true, componentsChars p.components⟩] by simp [productCells]]
  rw [joinChar_getLast? ',' _ _ (by simp [renderCell])]
  exact renderQuoted_getLast? _

theorem productRow_trim (p : Product) : trimChars (productRow p) = productRow p := by
  apply trimChars_eq_self
  · intro a ha
    rw [productRow_head?] at ha
    cases ha
    decide
  · intro a ha
    rw [productRow_getLast?] at ha
    cases ha
    decide

theorem productRow_ne_nil (p : Product) : productRow p ≠ [] := by
  intro h
  have := productRow_head? p
  rw [h] at this
  cases this

theorem productRow_newline_free (p : Product) (h : ProductSafe p) : '\n' ∉ productRow p :=
  row_no_newline _ (productCells_safe p h)

theorem parseCSVLine_productRow (p : Product) (h : ProductSafe p) :
    parseCSVLine (productRow p) = (productCells p).map (fun cl => cl.content) :=
  parseCSVLine_cells _ (by simp [productCells]) (productCells_safe p h)

/-- Erases the generated identity fields of a product. -/
def productKey (p : Product) : Product := { p with id := "", created_at := "" }

/-- A successful `addProduct` of a component-free record prepends it with the
fresh identity. -/
theorem addProductWith_empty_components (snap : List Product) (st : AppState) (pd : Product)
    (h : pd.components = []) :
    addProductWith snap st pd =
      some (Except.ok { st with
        products := { pd with id := genId st.nextId, created_at := st.nowIso } :: st.products,
        nextId := st.nextId + 1 }) := by
  unfold addProductWith
  rw [if_neg (by simp [h])]

theorem importProducts_fold (snap : List Product) :
    ∀ (ps : List Product) (st : AppState), (∀ p ∈ ps, ProductSafe p) →
      ((ps.map productRow).foldl (importProductStep snap) st).products.map productKey =
      (ps.map reimportedProduct).reverse ++ st.products.map productKey := by
  intro ps
  induction ps with
  | nil => intro st _; simp
  | cons p rest ih =>
      intro st h
      simp only [List.map_cons, List.foldl_cons]
      have hstep : importProductStep snap st (productRow p) =
          { st with
            products := { buildProduct ((productCells p).map (fun cl => cl.content)) with
              id := genId st.nextId, created_at := st.nowIso } :: st.products,
            nextId := st.nextId + 1 } := by
        unfold importProductStep
        rw [productRow_trim p]
        rw [if_neg (productRow_ne_nil p)]
        rw [parseCSVLine_productRow p (h p (List.mem_cons_self p rest))]
        rw [if_neg (by simp [productCells])]
        rw [addProductWith_empty_components snap st _ (by
          rw [buildProduct_cells p (h p (List.mem_cons_self p rest))]
          rfl)]
      rw [hstep]
      rw [ih _ (fun d hd => h d (List.mem_cons_of_mem p hd))]
      rw [buildProduct_cells p (h p (List.mem_cons_self p rest))]
      simp only [List.map_cons]
      rw [show productKey { reimportedProduct p with
          id := genId st.nextId, created_at := st.nowIso } = reimportedProduct p from rfl]
      simp

/-- Export-then-import round trip for the product collection. -/
theorem productsRoundTrip (s t : AppState) (h : ∀ p ∈ s.products, ProductSafe p) :
    (importProductsCSV t (exportProductsCSV s)).products.map productKey =
      (s.products.map reimportedProduct).reverse ++ t.products.map productKey := by
  unfold importProductsCSV exportProductsCSV
  rw [splitChar_joinChar '\n' (productHeader :: s.products.map productRow)
    (by
      intro l hl
      rcases List.mem_cons.mp hl with rfl | hl
      · decide
      · rcases List.mem_map.mp hl with ⟨p, hp, rfl⟩
        exact productRow_newline_free p (h p hp))
    (by simp)]
  show ((s.products.map productRow).foldl (importProductStep t.products) t).products.map
      productKey = _
  exact importProducts_fold t.products s.products t h

/-! ### Transactions CSV -/

/-- The stored string of a flow type. -/
def flowTypeStr : FlowType → String
  | FlowType.entrada => "entrada"
  | FlowType.saida => "saida"

/-- `(values[0] as any) || 'entrada'` read back into the typed field. -/
def parseFlowType (s : String) : FlowType :=
  if s = "saida" then FlowType.saida else FlowType.entrada

/-- The 6 cells of one row of `exportTransactionsCSV`. -/
def transactionCells (t : Transaction) : List Cell :=
  [ quotedStr (flowTypeStr t.type),
    quotedStr t.category,
    quotedStr t.description,
    ⟨false, qToChars t.amount⟩,
    quotedStr t.date,
    quotedStr (orEmpty t.project_title) ]

/-- One data row of `exportTransactionsCSV`. -/
def transactionRow (t : Transaction) : List Char :=
  joinChar ',' ((transactionCells t).map renderCell)

/-- The header line of `exportTransactionsCSV`. -/
def transactionHeader : List Char :=
  "tipo,categoria,descricao,valor,data,projeto".data

/-- `exportTransactionsCSV()`. -/
def exportTransactionsCSV (s : AppState) : List Char :=
  joinChar '\n' (transactionHeader :: s.transactions.map transactionRow)

/-- The transaction record `importTransactionsCSV` builds from one parsed
row (`today` models the `new Date()` fallback for an empty date cell). -/
def buildTransaction (today : String) (values : List (List Char)) : Transaction :=
  let v := getVal values
  { id := ""
    project_id := none
    project_title := optStr (v 5)
    type := parseFlowType (v 0)
    category := v 1
    description := v 2
    amount := parseFloatQ (values.getD 3 [])
    date := if v 4 = "" then today else v 4
    created_at := "" }

/-- The zeta-normal per-row body of `importTransactionsCSV`. -/
def importTransactionStep (st : AppState) (row : List Char) : AppState :=
  if trimChars row = [] then st
  else if (parseCSVLine (trimChars row)).length < 5 then st
  else addTransaction st (buildTransaction st.today (parseCSVLine (trimChars row)))

/-- `importTransactionsCSV(file)`. -/
def importTransactionsCSV (s : AppState) (content : List Char) : AppState :=
  match splitChar '\n' content with
  | [] => s
  | _ :: rows => rows.foldl importTransactionStep s

/-- A transaction whose mapped fields the CSV layer transports verbatim. -/
def TransactionSafe (t : Transaction) : Prop :=
  SafeCell (quotedStr t.category) ∧ SafeCell (quotedStr t.description) ∧
  WholeQ t.amount ∧ SafeStr t.date ∧ SafeOpt t.project_title

instance (t : Transaction) : Decidable (TransactionSafe t) := by
  unfold TransactionSafe; infer_instance

theorem transactionCells_safe (t : Transaction) (h : TransactionSafe t) :
    ∀ cell ∈ transactionCells t, SafeCell cell := by
  obtain ⟨hcat, hdesc, hamount, hdate, htitle⟩ := h
  intro cell hcell
  simp only [transactionCells, List.mem_cons, List.not_mem_nil, or_false] at hcell
  rcases hcell with rfl | rfl | rfl | rfl | rfl | rfl
  · cases t.type <;> decide
  · exact hcat
  · exact hdesc
  · exact qToChars_safeCell _ hamount
  · exact safeCell_quoted hdate
  · exact safeCell_orEmpty htitle

theorem parseFlowType_str (ty : FlowType) : parseFlowType (flowTypeStr ty) = ty := by
  cases ty <;> decide

/-- What re-importing an exported transaction produces: every mapped field
verbatim (only the generated identity and the unexported project link
differ). -/
def reimportedTransaction (t : Transaction) : Transaction :=
  { t with id := "", created_at := "", project_id := none }

theorem buildTransaction_cells (t : Transaction) (today : String) (h : TransactionSafe t) :
    buildTransaction today ((transactionCells t).map (fun cl => cl.content)) =
      reimportedTransaction t := by
  obtain ⟨hcat, hdesc, hamount, hdate, htitle⟩ := h
  simp only [buildTransaction, reimportedTransaction, transactionCells, List.map_cons,
    List.map_nil, getVal, List.getD_cons_zero, List.getD_cons_succ, mkStr_data, quotedStr]
  rw [parseFlowType_str]
  rw [if_neg (safeStr_ne_empty hdate)]
  rw [parseFloatQ_qToChars _ hamount]
  rw [optStr_orEmpty htitle]

theorem transactionRow_head? (t : Transaction) : (transactionRow t).head? = some '"' := by
  unfold transactionRow transactionCells
  rw [List.map_cons]
  rw [joinChar_head? ',' _ _ (by simp [renderCell, quotedStr])]
  exact renderQuoted_head? _

theorem transactionRow_getLast? (t : Transaction) :
    (transactionRow t).getLast? = some '"' := by
  unfold transactionRow
  rw [show (transactionCells t).map renderCell =
      ((transactionCells t).dropLast.map renderCell) ++
        [renderCell (quotedStr (orEmpty t.project_title))] by simp [transactionCells]]
  rw [joinChar_getLast? ',' _ _ (by simp [renderCell, quotedStr])]
  exact renderQuoted_getLast? _

theorem transactionRow_trim (t : Transaction) :
    trimChars (transactionRow t) = transactionRow t := by
  apply trimChars_eq_self
  · intro a ha
    rw [transactionRow_head?] at ha
    cases ha
    decide
  · intro a ha
    rw [transactionRow_getLast?] at ha
    cases ha
    decide

theorem transactionRow_ne_nil (t : Transaction) : transactionRow t ≠ [] := by
  intro h
  have := transactionRow_head? t
  rw [h] at this
  cases this

theorem transactionRow_newline_free (t : Transaction) (h : TransactionSafe t) :
    '\n' ∉ transactionRow t :=
  row_no_newline _ (transactionCells_safe t h)

theorem parseCSVLine_transactionRow (t : Transaction) (h : TransactionSafe t) :
    parseCSVLine (transactionRow t) = (transactionCells t).map (fun cl => cl.content) :=
  parseCSVLine_cells _ (by simp [transactionCells]) (transactionCells_safe t h)

/-- Erases the generated identity fields of a transaction. -/
def txKey (t : Transaction) : Transaction := { t with id := "", created_at := "" }

theorem importTransactions_fold :
    ∀ (ts : List Transaction) (st : AppState), (∀ t ∈ ts, TransactionSafe t) →
      ((ts.map transactionRow).foldl importTransactionStep st).transactions.map txKey =
      (ts.map reimportedTransaction).reverse ++ st.transactions.map txKey := by
  intro ts
  induction ts with
  | nil => intro st _; simp
  | cons t rest ih =>
      intro st h
      simp only [List.map_cons, List.foldl_cons]
      have hstep : importTransactionStep st (transactionRow t) =
          addTransaction st (reimportedTransaction t) := by
        unfold importTransactionStep
        rw [transactionRow_trim t]
        rw [if_neg (transactionRow_ne_nil t)]
        rw [parseCSVLine_transactionRow t (h t (List.mem_cons_self t rest))]
        rw [if_neg (by simp [transactionCells])]
        rw [buildTransaction_cells t st.today (h t (List.mem_cons_self t rest))]
      rw [hstep]
      rw [ih _ (fun d hd => h d (List.mem_cons_of_mem t hd))]
      rw [show (addTransaction st (reimportedTransaction t)).transactions.map txKey =
          txKey (reimportedTransaction t) :: st.transactions.map txKey by
        simp [addTransaction, txKey]]
      rw [show txKey (reimportedTransaction t) = reimportedTransaction t from rfl]
      simp

/-- Export-then-import round trip for the transaction collection. -/
theorem transactionsRoundTrip (s t : AppState)
    (h : ∀ tx ∈ s.transactions, TransactionSafe tx) :
    (importTransactionsCSV t (exportTransactionsCSV s)).transactions.map txKey =
      (s.transactions.map reimportedTransaction).reverse ++ t.transactions.map txKey := by
  unfold importTransactionsCSV exportTransactionsCSV
  rw [splitChar_joinChar '\n' (transactionHeader :: s.transactions.map transactionRow)
    (by
      intro l hl
      rcases List.mem_cons.mp hl with rfl | hl
      · decide
      · rcases List.mem_map.mp hl with ⟨tx, htx, rfl⟩
        exact transactionRow_newline_free tx (h tx htx))
    (by simp)]
  show ((s.transactions.map transactionRow).foldl importTransactionStep t).transactions.map
      txKey = _
  exact importTransactions_fold s.transactions t h

/-! ### Projects CSV -/

/-- The stored string of a project status. -/
def projectStatusStr : ProjectStatus → String
  | ProjectStatus.orcamento => "orcamento"
  | ProjectStatus.aprovado => "aprovado"
  | ProjectStatus.em_producao => "em_producao"
  | ProjectStatus.concluido => "concluido"
  | ProjectStatus.entregue => "entregue"

/-- The stored string of a project kind. -/
def projectKindStr : ProjectKind → String
  | ProjectKind.orcamento => "orcamento"
  | ProjectKind.venda => "venda"

/-- `(values[4] as any) || 'orcamento'` read back into the typed field. -/
def parseProjectStatus (s : String) : ProjectStatus :=
  if s = "aprovado" then ProjectStatus.aprovado
  else if s = "em_producao" then ProjectStatus.em_producao
  else if s = "concluido" then ProjectStatus.concluido
  else if s = "entregue" then ProjectStatus.entregue
  else ProjectStatus.orcamento

/-- `(values[5] as any) || 'orcamento'` read back into the typed field. -/
def parseProjectKind (s : String) : ProjectKind :=
  if s = "venda" then ProjectKind.venda else ProjectKind.orcamento

/-- The 12 cells of one row of `exportProjectsCSV`. -/
def projectCells (p : Project) : List Cell :=
  [ ⟨false, qToChars p.number⟩,
    quotedStr (strOfOptJS p.client_name),
    quotedStr p.title,
    quotedStr p.description,
    quotedStr (projectStatusStr p.status),
    quotedStr (projectKindStr p.type),
    ⟨false, qToChars p.budget⟩,
    quotedStr p.start_date,
    quotedStr p.end_date,
    ⟨false, qToChars (p.materials_cost.getD 0)⟩,
    ⟨false, qToChars (p.labor_cost.getD 0)⟩,
    ⟨false, qToChars (p.profit_margin.getD 0)⟩ ]

/-- One data row of `exportProjectsCSV`. -/
def projectRow (p : Project) : List Char :=
  joinChar ',' ((projectCells p).map renderCell)

/-- The header line of `exportProjectsCSV`. -/
def projectHeader : List Char :=
  "numero,cliente,titulo,descricao,status,tipo,orcamento,data_inicio,data_fim,custo_materiais,custo_mao_obra,margem_lucro".data

/-- `exportProjectsCSV()`. -/
def exportProjectsCSV (s : AppState) : List Char :=
  joinChar '\n' (projectHeader :: s.projects.map projectRow)

/-- The project record `importProjectsCSV` builds from one parsed row:
the found client's id, line items empty, numeric cost fields through
`parseFloat` with their `|| 0` / `|| 20` defaults. -/
def buildProject (clientId today : String) (values : List (List Char)) : Project :=
  let v := getVal values
  { id := ""
    number := 0
    client_id := clientId
    client_name := some (v 1)
    title := v 2
    description := v 3
    status := parseProjectStatus (v 4)
    type := parseProjectKind (v 5)
    products := []
    budget := parseFloatQ (values.getD 6 [])
    start_date := if v 7 = "" then today else v 7
    end_date := if v 8 = "" then today else v 8
    created_at := ""
    materials_cost := some (parseFloatQ (values.getD 9 []))
    labor_cost := some (parseFloatQ (values.getD 10 []))
    profit_margin := some (if parseFloatQ (values.getD 11 []) = 0 then 20
      else parseFloatQ (values.getD 11 []))
    payment_terms := none }

/-- The zeta-normal per-row body of `importProjectsCSV`: rows shorter than 8
fields or naming an unknown client are skipped; the rest go through
`addProject` against the captured snapshots. -/
def importProjectStep (clientsSnap : List Client) (projSnap : List Project)
    (prodSnap : List Product) (st : AppState) (row : List Char) : AppState :=
  if trimChars row = [] then st
  else if (parseCSVLine (trimChars row)).length < 8 then st
  else
    match clientsSnap.find? (fun cl => cl.name == getVal (parseCSVLine (trimChars row)) 1) with
    | none => st
    | some client =>
        addProjectWith projSnap prodSnap st
          (buildProject client.id st.today (parseCSVLine (trimChars row)))

/-- `importProjectsCSV(file)`. -/
def importProjectsCSV (s : AppState) (content : List Char) : AppState :=
  match splitChar '\n' content with
  | [] => s
  | _ :: rows => rows.foldl (importProjectStep s.clients s.projects s.products) s

/-- An optional amount that survives `parseFloat(x) || 0` into `some`:
present and whole. -/
def CostOK : Option ℚ → Prop
  | none => False
  | some q => WholeQ q

instance : (o : Option ℚ) → Decidable (CostOK o)
  | none => isFalse id
  | some q => inferInstanceAs (Decidable (WholeQ q))

/-- A `profit_margin` that survives `parseFloat(x) || 20`: present, whole and
nonzero. -/
def ProfitOK : Option ℚ → Prop
  | none => False
  | some q => WholeQ q ∧ q ≠ 0

instance : (o : Option ℚ) → Decidable (ProfitOK o)
  | none => isFalse id
  | some q => inferInstanceAs (Decidable (WholeQ q ∧ q ≠ 0))

/-- A present, safe client name. -/
def NameOK : Option String → Prop
  | none => False
  | some s => SafeStr s

instance : (o : Option String) → Decidable (NameOK o)
  | none => isFalse id
  | some s => inferInstanceAs (Decidable (SafeStr s))

/-- A project whose mapped fields the CSV layer transports verbatim (the
assigned `number` is NOT among them — see the counterexample). -/
def ProjectSafe (p : Project) : Prop :=
  WholeQ p.number ∧ NameOK p.client_name ∧
  SafeCell (quotedStr p.title) ∧ SafeCell (quotedStr p.description) ∧
  WholeQ p.budget ∧ SafeStr p.start_date ∧ SafeStr p.end_date ∧
  CostOK p.materials_cost ∧ CostOK p.labor_cost ∧ ProfitOK p.profit_margin

instance (p : Project) : Decidable (ProjectSafe p) := by unfold ProjectSafe; infer_instance

theorem projectCells_safe (p : Project) (h : ProjectSafe p) :
    ∀ cell ∈ projectCells p, SafeCell cell := by
  obtain ⟨hnum, hname, htitle, hdesc, hbud, hstart, hend, hmatc, hlab, hprof⟩ := h
  intro cell hcell
  simp only [projectCells, List.mem_cons, List.not_mem_nil, or_false] at hcell
  rcases hcell with rfl | rfl | rfl | rfl | rfl | rfl | rfl | rfl | rfl | rfl | rfl | rfl
  · exact qToChars_safeCell _ hnum
  · cases hcn : p.client_name with
    | none => rw [hcn] at hname; exact absurd hname id
    | some nm =>
        rw [hcn] at hname
        exact safeCell_quoted hname
  · exact htitle
  · exact hdesc
  · cases p.status <;> decide
  · cases p.type <;> decide
  · exact qToChars_safeCell _ hbud
  · exact safeCell_quoted hstart
  · exact safeCell_quoted hend
  · cases hmc : p.materials_cost with
    | none => rw [hmc] at hmatc; exact absurd hmatc id
    | some q => rw [hmc] at hmatc; exact qToChars_safeCell _ hmatc
  · cases hlc : p.labor_cost with
    | none => rw [hlc] at hlab; exact absurd hlab id
    | some q => rw [hlc] at hlab; exact qToChars_safeCell _ hlab
  · cases hpm : p.profit_margin with
    | none => rw [hpm] at hprof; exact absurd hprof id
    | some q => rw [hpm] at hprof; exact qToChars_safeCell _ hprof.1

theorem parseProjectStatus_str (st : ProjectStatus) :
    parseProjectStatus (projectStatusStr st) = st := by
  cases st <;> decide

theorem parseProjectKind_str (k : ProjectKind) :
    parseProjectKind (projectKindStr k) = k := by
  cases k <;> decide

/-- Erases everything a project re-import legitimately regenerates or drops:
the generated identity, the assigned number, the re-looked-up client id, the
line items and the payment terms (none of which the CSV mapping carries —
except `numero`, which IS exported but not read back). -/
def projKey (p : Project) : Project :=
  { p with
    id := ""
    created_at := ""
    number := 0
    client_id := ""
    products := []
    payment_terms := none }

theorem buildProject_cells (p : Project) (cid today : String) (h : ProjectSafe p) :
    projKey (buildProject cid today ((projectCells p).map (fun cl => cl.content))) =
      projKey p := by
  obtain ⟨hnum, hname, htitle, hdesc, hbud, hstart, hend, hmatc, hlab, hprof⟩ := h
  cases hcn : p.client_name with
  | none => rw [hcn] at hname; exact absurd hname id
  | some nm =>
      rw [hcn] at hname
      cases hmc : p.materials_cost with
      | none => rw [hmc] at hmatc; exact absurd hmatc id
      | some qm =>
          rw [hmc] at hmatc
          cases hlc : p.labor_cost with
          | none => rw [hlc] at hlab; exact absurd hlab id
          | some ql =>
              rw [hlc] at hlab
              cases hpm : p.profit_margin with
              | none => rw [hpm] at hprof; exact absurd hprof id
              | some qp =>
                  rw [hpm] at hprof
                  simp only [projKey, buildProject, projectCells, List.map_cons, List.map_nil,
                    getVal, List.getD_cons_zero, List.getD_cons_succ, mkStr_data, quotedStr,
                    hcn, hmc, hlc, hpm, strOfOptJS, Option.getD_some]
                  rw [parseProjectStatus_str, parseProjectKind_str]
                  rw [if_neg (safeStr_ne_empty hstart), if_neg (safeStr_ne_empty hend)]
                  rw [parseFloatQ_qToChars _ hbud, parseFloatQ_qToChars _ hmatc,
                    parseFloatQ_qToChars _ hlab, parseFloatQ_qToChars _ hprof.1]
                  rw [if_neg hprof.2]

theorem renderBare (l : List Char) : renderCell ⟨false, l⟩ = l := rfl

theorem projectRow_head? (p : Project) (h : WholeQ p.number) :
    ∃ d, d < 10 ∧ (projectRow p).head? = some (digitChar d) := by
  unfold projectRow projectCells
  rw [List.map_cons]
  rw [joinChar_head? ',' _ _ (by rw [renderBare]; exact qToChars_ne_nil h)]
  rw [renderBare]
  rcases hq : qToChars p.number with _ | ⟨x, xs⟩
  · exact absurd hq (qToChars_ne_nil h)
  · obtain ⟨d, hd, rfl⟩ := qToChars_mem_digit h x (by rw [hq]; exact List.mem_cons_self x xs)
    exact ⟨d, hd, rfl⟩

theorem projectRow_getLast? (p : Project) (h : ProfitOK p.profit_margin) :
    ∃ d, d < 10 ∧ (projectRow p).getLast? = some (digitChar d) := by
  cases hpm : p.profit_margin with
  | none => rw [hpm] at h; exact absurd h id
  | some qp =>
      rw [hpm] at h
      unfold projectRow
      rw [show (projectCells p).map renderCell =
          ((projectCells p).dropLast.map renderCell) ++
            [renderCell ⟨false, qToChars (p.profit_margin.getD 0)⟩] by simp [projectCells]]
      rw [joinChar_getLast? ',' _ _ (by
        rw [renderBare, hpm]
        exact qToChars_ne_nil h.1)]
      rw [renderBare, hpm]
      simp only [Option.getD_some]
      rcases List.eq_nil_or_concat (qToChars qp) with heq | ⟨init, x, heq⟩
      · exact absurd heq (qToChars_ne_nil h.1)
      · have hx : x ∈ qToChars qp := by rw [heq]; simp
        obtain ⟨d, hd, rfl⟩ := qToChars_mem_digit h.1 x hx
        refine ⟨d, hd, ?_⟩
        rw [heq, List.concat_eq_append]
        exact List.getLast?_concat _

theorem projectRow_trim (p : Project) (hn : WholeQ p.number)
    (hp : ProfitOK p.profit_margin) : trimChars (projectRow p) = projectRow p := by
  apply trimChars_eq_self
  · intro a ha
    obtain ⟨d, hd, hh⟩ := projectRow_head? p hn
    rw [hh] at ha
    cases ha
    exact (digit_char_props d hd).2.2.2.2
  · intro a ha
    obtain ⟨d, hd, hh⟩ := projectRow_getLast? p hp
    rw [hh] at ha
    cases ha
    exact (digit_char_props d hd).2.2.2.2

theorem projectRow_ne_nil (p : Project) (hn : WholeQ p.number) : projectRow p ≠ [] := by
  intro h
  obtain ⟨d, hd, hh⟩ := projectRow_head? p hn
  rw [h] at hh
  cases hh

theorem projectRow_newline_free (p : Project) (h : ProjectSafe p) : '\n' ∉ projectRow p :=
  row_no_newline _ (projectCells_safe p h)

theorem parseCSVLine_projectRow (p : Project) (h : ProjectSafe p) :
    parseCSVLine (projectRow p) = (projectCells p).map (fun cl => cl.content) :=
  parseCSVLine_cells _ (by simp [projectCells]) (projectCells_safe p h)

theorem importProjects_fold (clientsSnap : List Client) (projSnap : List Project)
    (prodSnap : List Product) :
    ∀ (ps : List Project) (st : AppState),
      (∀ p ∈ ps, ProjectSafe p) →
      (∀ p ∈ ps, ∀ nm, p.client_name = some nm → ∃ cl ∈ clientsSnap, cl.name = nm) →
      ((ps.map projectRow).foldl (importProjectStep clientsSnap projSnap prodSnap)
        st).projects.map projKey =
      (ps.map projKey).reverse ++ st.projects.map projKey := by
  intro ps
  induction ps with
  | nil => intro st _ _; simp
  | cons p rest ih =>
      intro st h hcl
      have hp := h p (List.mem_cons_self p rest)
      obtain ⟨hnum, hname, htitle, hdesc, hbud, hstart, hend, hmatc, hlab, hprof⟩ := hp
      cases hcn : p.client_name with
      | none => rw [hcn] at hname; exact absurd hname id
      | some nm =>
          rw [hcn] at hname
          obtain ⟨cl, hclmem, hclname⟩ := hcl p (List.mem_cons_self p rest) nm hcn
          simp only [List.map_cons, List.foldl_cons]
          have hval : getVal (parseCSVLine (trimChars (projectRow p))) 1 = nm := by
            rw [projectRow_trim p hnum hprof]
            rw [parseCSVLine_projectRow p (h p (List.mem_cons_self p rest))]
            simp only [projectCells, List.map_cons, getVal, List.getD_cons_succ,
              List.getD_cons_zero]
            rw [hcn]
            show String.mk nm.data = nm
            exact mkStr_data nm
          have hfind : ∃ cl', clientsSnap.find?
              (fun c => c.name == getVal (parseCSVLine (trimChars (projectRow p))) 1) =
              some cl' := by
            apply Option.isSome_iff_exists.mp
            apply List.find?_isSome.mpr
            exact ⟨cl, hclmem, by rw [hval]; exact beq_iff_eq.mpr hclname⟩
          obtain ⟨cl', hfind'⟩ := hfind
          have hstep : importProjectStep clientsSnap projSnap prodSnap st (projectRow p) =
              addProjectWith projSnap prodSnap st
                (buildProject cl'.id st.today (parseCSVLine (trimChars (projectRow p)))) := by
            unfold importProjectStep
            have h1 : ¬ trimChars (projectRow p) = [] := by
              rw [projectRow_trim p hnum hprof]
              exact projectRow_ne_nil p hnum
            have h2 : ¬ (parseCSVLine (trimChars (projectRow p))).length < 8 := by
              rw [projectRow_trim p hnum hprof]
              rw [parseCSVLine_projectRow p (h p (List.mem_cons_self p rest))]
              simp [projectCells]
            rw [if_neg h1, if_neg h2, hfind']
          rw [hstep]
          rw [ih _ (fun d hd => h d (List.mem_cons_of_mem p hd))
            (fun d hd => hcl d (List.mem_cons_of_mem p hd))]
          rw [show (addProjectWith projSnap prodSnap st
              (buildProject cl'.id st.today
                (parseCSVLine (trimChars (projectRow p))))).projects.map projKey =
            projKey (buildProject cl'.id st.today
              (parseCSVLine (trimChars (projectRow p)))) :: st.projects.map projKey by
            rw [addProjectWith_projects]
            rw [List.map_cons]
            rfl]
          rw [projectRow_trim p hnum hprof]
          rw [parseCSVLine_projectRow p (h p (List.mem_cons_self p rest))]
          rw [buildProject_cells p cl'.id st.today (h p (List.mem_cons_self p rest))]
          simp

/-- Export-then-import round trip for the project collection. -/
theorem projectsRoundTrip (s t : AppState)
    (h : ∀ p ∈ s.projects, ProjectSafe p)
    (hcl : ∀ p ∈ s.projects, ∀ nm, p.client_name = some nm → ∃ cl ∈ t.clients, cl.name = nm) :
    (importProjectsCSV t (exportProjectsCSV s)).projects.map projKey =
      (s.projects.map projKey).reverse ++ t.projects.map projKey := by
  unfold importProjectsCSV exportProjectsCSV
  rw [splitChar_joinChar '\n' (projectHeader :: s.projects.map projectRow)
    (by
      intro l hl
      rcases List.mem_cons.mp hl with rfl | hl
      · decide
      · rcases List.mem_map.mp hl with ⟨p, hp, rfl⟩
        exact projectRow_newline_free p (h p hp))
    (by simp)]
  show ((s.projects.map projectRow).foldl
      (importProjectStep t.clients t.projects t.products) t).projects.map projKey = _
  exact importProjects_fold t.clients t.projects t.products s.projects t h hcl

/-- C8 (amended): exporting then re-importing transports the mapped fields
of Clients, Products, Transactions and Projects verbatim (up to fresh
ids/timestamps, erased by the `*Key` maps), EXCEPT that a client's street
comes back as `streetType ++ " " ++ street` with `streetType` reset to
`"Rua"`, a product's components list comes back empty, and a project's
exported `numero` is discarded and re-assigned — as `reimportedClient`,
`reimportedProduct` and `projKey` record, and the counterexample
demonstrates.  The safety hypotheses exclude text the CSV layer cannot
transport (quotes/commas/newlines, padding whitespace, absent optionals
the import re-defaults, non-whole amounts) and require each project's
client to exist in the import target. -/
theorem csv_roundtrip (s t : AppState)
    (hc : ∀ c ∈ s.clients, ClientSafe c)
    (hp : ∀ p ∈ s.products, ProductSafe p)
    (htx : ∀ tx ∈ s.transactions, TransactionSafe tx)
    (hj : ∀ p ∈ s.projects, ProjectSafe p)
    (hjc : ∀ p ∈ s.projects, ∃ cl ∈ t.clients, p.client_name = some cl.name) :
    ((importClientsCSV t (exportClientsCSV s)).clients.map clientKey =
      (s.clients.map reimportedClient).reverse ++ t.clients.map clientKey) ∧
    ((importProductsCSV t (exportProductsCSV s)).products.map productKey =
      (s.products.map reimportedProduct).reverse ++ t.products.map productKey) ∧
    ((importTransactionsCSV t (exportTransactionsCSV s)).transactions.map txKey =
      (s.transactions.map reimportedTransaction).reverse ++ t.transactions.map txKey) ∧
    ((importProjectsCSV t (exportProjectsCSV s)).projects.map projKey =
      (s.projects.map projKey).reverse ++ t.projects.map projKey) := by
  refine ⟨clientsRoundTrip s t hc, productsRoundTrip s t hp,
    transactionsRoundTrip s t htx, projectsRoundTrip s t hj ?_⟩
  intro p hpmem nm hnm
  obtain ⟨cl, hclm, hname⟩ := hjc p hpmem
  refine ⟨cl, hclm, ?_⟩
  rw [hnm] at hname
  exact (Option.some.injEq _ _).mp hname.symm

/-- A concrete client living at `Rua Exemplo` (street field `"Exemplo"`,
street type `"Rua"`). -/
def demoClient : Client :=
  { id := "c1", name := "Joao Silva", type := ClientType.pf,
    cpf := some "123.456.789-00", cnpj := none, email := "joao@email.com",
    phone := "(11) 3333-4444", mobile := "(11) 98888-7777", razao_social := none,
    inscricao_estadual := none, isento_icms := some false, numero := none,
    complemento := none, id_empresa := none, fl_ativo := true,
    address := { country := "Brasil", state := "SP", city := "Sao Paulo",
                 zipCode := "01310-100", neighborhood := "Centro",
                 streetType := "Rua", street := "Exemplo" },
    created_at := "", total_projects := some 0, total_value := some 0 }

/-- A concrete project numbered 7 on behalf of `demoClient`. -/
def demoProj : Project :=
  { id := "pr7", number := 7, client_id := "c1", client_name := some "Joao Silva",
    title := "Mesa grande", description := "", status := ProjectStatus.aprovado,
    type := ProjectKind.orcamento, products := [], budget := 1000,
    start_date := "2026-01-01", end_date := "2026-02-01", created_at := "",
    materials_cost := some 0, labor_cost := some 0, profit_margin := some 20,
    payment_terms := none }

set_option maxHeartbeats 4000000 in
set_option maxRecDepth 100000 in
/-- C8 counterexample: on concrete data, (i) the client's street field does
NOT survive the round trip — `"Exemplo"` comes back as `"Rua Exemplo"`; (ii)
the product's components list does NOT survive — `[A x 2]` comes back
empty; (iii) the project's `numero` column does NOT survive — 7 comes back
re-assigned to 1.  Street and components sit squarely in the column
mapping (`endereco`, `componentes`, `numero`), refuting the claim's "in
particular" clause. -/
theorem csv_roundtrip_counterexample :
    ((importClientsCSV emptyState
        (exportClientsCSV { emptyState with clients := [demoClient] })).clients.map
      (fun c => c.address.street) = ["Rua Exemplo"] ∧
      demoClient.address.street = "Exemplo") ∧
    ((importProductsCSV emptyState
        (exportProductsCSV { emptyState with products := [prodB] })).products.map
      (fun p => p.components) = [[]] ∧
      prodB.components = [compA]) ∧
    ((importProjectsCSV { emptyState with clients := [demoClient] }
        (exportProjectsCSV { emptyState with projects := [demoProj] })).projects.map
      (fun p => p.number) = [1] ∧
      demoProj.number = 7) := by
  refine ⟨⟨?_, by decide⟩, ⟨?_, by decide⟩, ⟨?_, ?_⟩⟩
  · decide
  · decide
  · decide
  · decide

/-- The concrete store exported in the C8 witness. -/
def csvState : AppState :=
  { emptyState with
    clients := [demoClient]
    products := [prodB]
    transactions := [oldTx]
    projects := [demoProj] }

/-- The concrete import target of the C8 witness (it already holds the
client the project row names). -/
def csvTarget : AppState := { emptyState with clients := [demoClient] }

/-- C8 witness: the round-trip statement instantiated on a concrete store
with one client, one composite product, one transaction and one project,
every safety hypothesis discharged by computation. -/
theorem csv_roundtrip_witness :
    ((importClientsCSV csvTarget (exportClientsCSV csvState)).clients.map clientKey =
      (csvState.clients.map reimportedClient).reverse ++ csvTarget.clients.map clientKey) ∧
    ((importProductsCSV csvTarget (exportProductsCSV csvState)).products.map productKey =
      (csvState.products.map reimportedProduct).reverse ++
        csvTarget.products.map productKey) ∧
    ((importTransactionsCSV csvTarget (exportTransactionsCSV csvState)).transactions.map
        txKey =
      (csvState.transactions.map reimportedTransaction).reverse ++
        csvTarget.transactions.map txKey) ∧
    ((importProjectsCSV csvTarget (exportProjectsCSV csvState)).projects.map projKey =
      (csvState.projects.map projKey).reverse ++ csvTarget.projects.map projKey) :=
  csv_roundtrip csvState csvTarget (by decide) (by decide) (by decide) (by decide) (by decide)
